import Mathlib

/-!
Verification development for a two-stage Jack front end: a tokenizer
(`parser/jack_tokenizer.py`, `parser/utils/patterns.py`) and a recursive-descent
compilation engine (`parser/compilation_engine.py`).  Source text, tokens and
emitted values are modelled as `List Char`; the token stream, the engine state
and the emitted trace are explicit records; Python exceptions are an explicit
error channel that carries the state at the point of the raise (Python
exceptions do not roll back mutations).
-/

namespace Jack

/-- Convenience: the character list of a string literal. -/
def toL (s : String) : List Char := s.toList

/-! ## Token patterns (`parser/utils/patterns.py`)

Each `*Full` function is the shallow embedding of `PATTERN.fullmatch(token)`;
`matchLen` below embeds one step of `ALL_TERMINATORS.finditer`. -/

/-- The keyword alternatives of the `KEYWORD` regex, in alternation order. -/
def kwList : List (List Char) :=
  [toL "class", toL "constructor", toL "function", toL "method", toL "field",
   toL "static", toL "var", toL "int", toL "char", toL "boolean", toL "void",
   toL "true", toL "false", toL "null", toL "this", toL "let", toL "do",
   toL "if", toL "else", toL "while", toL "return"]

/-- The character class of the `SYMBOL` regex: `[{}()\[\].,;+\-*/&|<>=~]`. -/
def symbolSet : List Char :=
  ['\x7b', '\x7d', '(', ')', '[', ']', '.', ',', ';', '+', '-', '*', '/',
   '&', '|', '<', '>', '=', '~']

/-- Decimal digit test (`\d` over the ASCII inputs the repo handles). -/
def isDig (c : Char) : Bool := '0' ≤ c && c ≤ '9'

/-- First character of the `IDENTIFIER` regex: the class `[A-z_]`, i.e. the
ASCII range 65..122 (which, beyond letters, contains `[ \ ] ^ _` and a
backtick), `_` being inside that range already. -/
def identStart (c : Char) : Bool := 65 ≤ c.toNat && c.toNat ≤ 122

/-- A `\w` character: letters, digits and underscore. -/
def isWordChar (c : Char) : Bool := c.isAlpha || isDig c || c = '_'

/-- Embedding of `KEYWORD.fullmatch`: the whole token is one of the 21 keyword literals. -/
def kwFull (t : List Char) : Bool := kwList.contains t

/-- Embedding of `SYMBOL.fullmatch`: exactly one character, drawn from `symbolSet`. -/
def symFull (t : List Char) : Bool :=
  match t with
  | [c] => symbolSet.contains c
  | _ => false

/-- The digit-wise lookbehind `(?<=[0-3][0-2][0-7][0-6][0-7])` of `INT_CONST`,
applied to a five-character token. -/
def digitWise : List Char → Bool
  | [a, b, c, d, e] =>
    ('0' ≤ a && a ≤ '3') && ('0' ≤ b && b ≤ '2') && ('0' ≤ c && c ≤ '7') &&
    ('0' ≤ d && d ≤ '6') && ('0' ≤ e && e ≤ '7')
  | _ => false

/-- Embedding of `INT_CONST.fullmatch` for the regex `\d{1,4}|(\d{5}(?<=[0-3][0-2][0-7][0-6][0-7]))`:
one to four digits, or five digits passing the digit-wise lookbehind. -/
def intFull (t : List Char) : Bool :=
  t.all isDig && (decide (1 ≤ t.length ∧ t.length ≤ 4) || (t.length = 5 && digitWise t))

/-- Embedding of `STRING_CONST.fullmatch` for `"(.(?<!"))*"`: a double quote, then characters
that are neither a double quote nor a newline, then a closing double quote. -/
def strFull (t : List Char) : Bool :=
  match t with
  | '"' :: rest =>
    rest ≠ [] && rest.getLastD ' ' = '"' &&
      rest.dropLast.all (fun c => c ≠ '"' && c ≠ '\n')
  | _ => false

/-- Embedding of `IDENTIFIER.fullmatch` for `[A-z_]\w*`. -/
def identFull (t : List Char) : Bool :=
  match t with
  | c :: rest => identStart c && rest.all isWordChar
  | [] => false

/-- The five token categories returned by `JackTokenizer.token_type`. -/
inductive TType where
  | keywordT
  | symbolT
  | intConstT
  | stringConstT
  | identifierT
deriving DecidableEq

/-- Embedding of `JackTokenizer.token_type`: the five patterns are tried with `fullmatch`
in fixed priority order; an unclassifiable token yields `None`. -/
def tokenTypeF (t : List Char) : Option TType :=
  if kwFull t then some .keywordT
  else if symFull t then some .symbolT
  else if intFull t then some .intConstT
  else if strFull t then some .stringConstT
  else if identFull t then some .identifierT
  else none

/-! ## Decoded token values (the typed accessors of `JackTokenizer`) -/

/-- Embedding of `JackTokenizer.symbol`: the token text with the three XML escapes of
`XML_ESCAPES` applied. -/
def symbolEsc (t : List Char) : List Char :=
  if t = ['&'] then toL "&amp;"
  else if t = ['<'] then toL "&lt;"
  else if t = ['>'] then toL "&gt;"
  else t

/-- Embedding of `int(self.token)`: the decimal value of a digit string. -/
def intValF (t : List Char) : Nat :=
  t.foldl (fun a c => a * 10 + (c.toNat - 48)) 0

/-- Embedding of `self.token[1:-1]`: the token without its first and last character. -/
def strValF (t : List Char) : List Char := (t.drop 1).dropLast

/-- Decimal rendering of a natural number (what `print` does to the cached
`int_val` when the engine writes an `integerConstant` leaf). -/
def natToDecAux : Nat → Nat → List Char
  | 0, _ => []
  | fuel + 1, n =>
    if n < 10 then [Char.ofNat (48 + n)]
    else natToDecAux fuel (n / 10) ++ [Char.ofNat (48 + n % 10)]

/-- Decimal rendering of a natural number. -/
def natToDec (n : Nat) : List Char := natToDecAux (n + 1) n

/-- The text the engine emits for a token, by the token's classification:
keywords and identifiers verbatim, symbols XML-escaped, integer constants as
the decimal rendering of their decoded value, string constants unquoted. -/
def decodeTok (t : List Char) : List Char :=
  match tokenTypeF t with
  | some .keywordT => t
  | some .symbolT => symbolEsc t
  | some .intConstT => natToDec (intValF t)
  | some .stringConstT => strValF t
  | some .identifierT => t
  | none => t

/-! ## The combined scanner (`ALL_TERMINATORS.finditer` over a cleaned line)

Python's `re` engine is leftmost-first: at each position the five groups are
tried in order (keyword, symbol, integer, string, identifier); within the
keyword group the alternatives are tried in listed order; `\d{1,4}` is greedy
with nothing after it, so it takes at most four digits; positions where no
group matches are skipped by `finditer`. -/

/-- Bool test that `p` is a prefix of `cs`. -/
def isPre : List Char → List Char → Bool
  | [], _ => true
  | _ :: _, [] => false
  | a :: as_, b :: bs => a = b && isPre as_ bs

/-- Try the keyword alternatives in order at the current position. -/
def kwScan : List (List Char) → List Char → Option Nat
  | [], _ => none
  | k :: ks, cs => if isPre k cs then some k.length else kwScan ks cs

/-- Length of the match of `ALL_TERMINATORS` starting exactly at the head of
`cs`, or `none` when no group matches there. -/
def matchLen (cs : List Char) : Option Nat :=
  match kwScan kwList cs with
  | some n => some n
  | none =>
    match cs with
    | [] => none
    | c :: rest =>
      if symbolSet.contains c then some 1
      else if isDig c then some (min 4 (1 + (rest.takeWhile isDig).length))
      else if c = '"' then
        let middle := rest.takeWhile (fun d => d ≠ '"' && d ≠ '\n')
        match rest.drop middle.length with
        | '"' :: _ => some (middle.length + 2)
        | _ => none
      else if identStart c then some (1 + (rest.takeWhile isWordChar).length)
      else none

/-- One pass of `finditer`: emit each match, skip each unmatched character. -/
def findAllAux : Nat → List Char → List (List Char)
  | 0, _ => []
  | _, [] => []
  | fuel + 1, cs@(_ :: rest) =>
    match matchLen cs with
    | some n => cs.take n :: findAllAux fuel (cs.drop n)
    | none => findAllAux fuel rest

/-- All matches of `ALL_TERMINATORS` over a cleaned line, in order. -/
def findAll (cs : List Char) : List (List Char) := findAllAux cs.length cs

/-! ## The token stream (`JackTokenizer.__init__` / `advance` / `has_more_tokens`)

On the first `advance` call the generator loop drains the whole input, so the
queue is modelled as the full lexeme list from the start.  `consumed` is ghost
instrumentation: it records, in order, every lexeme an `advance` call promoted
to current; nothing in the behaviour reads it. -/

structure Tok where
  token : List Char
  nextToken : List Char
  queue : List (List Char)
  more : Bool
  line : Nat
  consumed : List (List Char)
deriving DecidableEq

/-- The stream as `__init__` leaves it, with the unit's lexemes queued. -/
def initTok (ls : List (List Char)) : Tok :=
  { token := [], nextToken := [], queue := ls, more := true, line := 1,
    consumed := [] }

/-- Errors crossing the model: Python `CompileError` subclasses, or the
non-`CompileError` exceptions (`StopIteration`, fuel exhaustion). -/
inductive EKind where
  | baseE
  | keywordE
  | symbolE
  | typeE
  | classVarDecE
  | subroutineE
  | parameterListE
  | subroutineBodyE
  | varDecE
  | letE
  | expressionE
  | opE
  | keywordConstantE
  | doE
  | subroutineCallE
  | returnE
  | ifE
  | whileE
deriving DecidableEq

/-- A raised `CompileError` (subclass given by `kind`) with its message. -/
structure CErr where
  kind : EKind
  msg : String
deriving DecidableEq

/-- The full error channel: `CompileError`s, plus `StopIteration` (raised by
`advance` past exhaustion, never caught by the engine) standing also for model
fuel exhaustion. -/
inductive Err where
  | compile (e : CErr)
  | stop (msg : String)
deriving DecidableEq

/-- Embedding of `JackTokenizer.advance`.  With tokens remaining: the current token becomes
the buffered lookahead if one exists, otherwise the next queued lexeme; then
the following queued lexeme is buffered; the inner `StopIteration` from an
empty queue is caught and leaves an empty buffer, which marks the stream
exhausted.  Without tokens remaining: `StopIteration` is raised. -/
def advT (t : Tok) : Except Err Tok :=
  if t.more then
    let t1 :=
      if t.nextToken ≠ [] then
        match t.queue with
        | [] =>
          { t with token := t.nextToken, nextToken := [], line := t.line + 1,
                   consumed := t.consumed ++ [t.nextToken] }
        | q :: qs =>
          { t with token := t.nextToken, nextToken := q, queue := qs,
                   line := t.line + 1, consumed := t.consumed ++ [t.nextToken] }
      else
        match t.queue with
        | [] => { t with nextToken := [] }
        | q :: qs =>
          match qs with
          | [] =>
            { t with token := q, nextToken := [], queue := [],
                     line := t.line + 1, consumed := t.consumed ++ [q] }
          | q2 :: qs2 =>
            { t with token := q, nextToken := q2, queue := qs2,
                     line := t.line + 1, consumed := t.consumed ++ [q] }
    .ok (if t1.nextToken = [] then { t1 with more := false } else t1)
  else .error (.stop "No more tokens")

/-- Exhaustively calling `advance` while `has_more_tokens()` is true,
collecting the current token after each call.  The Bool is true when the run
was cut short (fuel, or an error from `advance`). -/
def driveAux : Nat → Tok → List (List Char) → List (List Char) × Tok × Bool
  | 0, t, acc => (acc, t, true)
  | fuel + 1, t, acc =>
    if t.more then
      match advT t with
      | .ok t2 => driveAux fuel t2 (acc ++ [t2.token])
      | .error _ => (acc, t, true)
    else (acc, t, false)

/-! ## The classification cache (`token_cache`)

Each typed accessor is modelled together with `token_type` exactly as the code
reads: a cache hit returns the stored value; a miss recomputes and *replaces*
the whole per-token entry with a one-key entry.  The Bool returned by
`cacheTokenType` records whether the five patterns were run (a `fullmatch`
pass), i.e. whether the `except KeyError` path was taken. -/

inductive CacheVal where
  | ttypeV (v : Option TType)
  | keyWordV (v : List Char)
  | symbolV (v : List Char)
  | identifierV (v : List Char)
  | intValV (v : Nat)
  | stringValV (v : List Char)
deriving DecidableEq

/-- Association-list lookup standing for the Python dict. -/
def cacheGet (c : List (List Char × CacheVal)) (t : List Char) : Option CacheVal :=
  match c with
  | [] => none
  | (k, v) :: rest => if k = t then some v else cacheGet rest t

/-- Store `v` under `t`, replacing any previous entry (dict assignment). -/
def cacheSet (c : List (List Char × CacheVal)) (t : List Char) (v : CacheVal) :
    List (List Char × CacheVal) :=
  match c with
  | [] => [(t, v)]
  | (k, w) :: rest => if k = t then (t, v) :: rest else (k, w) :: cacheSet rest t v

/-- Embedding of `token_type()` over the cache: returns (classification, new cache, whether
the patterns were matched on this call). -/
def cacheTokenType (c : List (List Char × CacheVal)) (t : List Char) :
    Option TType × List (List Char × CacheVal) × Bool :=
  match cacheGet c t with
  | some (.ttypeV v) => (v, c, false)
  | _ =>
    let v := tokenTypeF t
    (v, cacheSet c t (.ttypeV v), true)

/-- Embedding of `key_word()` over the cache: calls `token_type()` first (possibly
re-matching), then on a `key_word` cache miss stores a `key_word`-only entry,
overwriting whatever entry the token had. -/
def cacheKeyWord (c : List (List Char × CacheVal)) (t : List Char) :
    Option (List Char) × List (List Char × CacheVal) × Bool :=
  match cacheTokenType c t with
  | (some .keywordT, c1, matched) =>
    match cacheGet c1 t with
    | some (.keyWordV v) => (some v, c1, matched)
    | _ => (some t, cacheSet c1 t (.keyWordV t), matched)
  | (_, c1, matched) => (none, c1, matched)

/-! ## Claim C6: the advance() contract -/

/-- The lexemes still to be promoted: the buffered lookahead, then the queue. -/
def restOf (t : Tok) : List (List Char) :=
  (if t.nextToken = [] then [] else [t.nextToken]) ++ t.queue

/-! ## The compilation engine (`parser/compilation_engine.py`)

The engine is embedded as state-passing computations.  A raised exception
carries the state at the raise point, because Python exceptions do not undo
mutations already performed inside the `try` block; `except SomeError`
handlers therefore resume from that state. -/

/-- One emitted output line: an opening tag, a closing tag, or a terminal
(leaf) line, each recorded with the indentation in force when it was written
(`' ' * self._indent` plus the printed element). -/
inductive Ev where
  | openT (name : String) (ind : Int)
  | closeT (name : String) (ind : Int)
  | leaf (tag : String) (v : List Char) (ind : Int)
deriving DecidableEq

/-- Engine state: the tokenizer, `self._indent`, the pending-output queue
`self._body` (tag, printed text), the cursor flag `self._safe_to_step`, and
the trace written so far.  `committed` is ghost instrumentation mirroring
`Tok.consumed`: the raw lexemes whose leaf entries were appended to the
queue, in order; the behaviour never reads it. -/
structure Eng where
  tok : Tok
  indent : Int
  body : List (String × List Char)
  safe : Bool
  out : List Ev
  committed : List (List Char)
deriving DecidableEq

/-- Result of one engine computation; errors keep the state at the raise. -/
inductive Res (α : Type) where
  | ok (a : α) (s : Eng)
  | err (e : Err) (s : Eng)
deriving DecidableEq

/-- State-passing engine computations. -/
def M (α : Type) := Eng → Res α

instance : Monad M where
  pure a := fun s => .ok a s
  bind m f := fun s =>
    match m s with
    | .ok a s' => f a s'
    | .err e s' => .err e s'

/-- Read the current state. -/
def getS : M Eng := fun s => .ok s s

/-- Raise a `CompileError` of kind `k`. -/
def throwC (k : EKind) (msg : String) : M Unit := fun s => .err (.compile ⟨k, msg⟩) s

/-- The pair `f.advance(); self._safe_to_step = False`; `StopIteration` from
`advance` propagates with the state unchanged. -/
def advanceClear : M Unit := fun s =>
  match advT s.tok with
  | .ok t2 => .ok () { s with tok := t2, safe := false }
  | .error e => .err e s

/-- The guard `if self._safe_to_step: f.advance(); self._safe_to_step = False`
that opens every token-consuming helper. -/
def stepIfSafe : M Unit := fun s =>
  if s.safe then advanceClear s else .ok () s

/-- Append a leaf entry for the current token to `self._body` and set
`self._safe_to_step = True`; `v` is the accessor applied to the token. -/
def pushBody (tag : String) (v : List Char → List Char) : M Unit := fun s =>
  .ok () { s with body := s.body ++ [(tag, v s.tok.token)], safe := true,
                  committed := s.committed ++ [s.tok.token] }

/-- Embedding of `"| ".join("'{}'".format(x) for x in xs)`. -/
def expectList (xs : List (List Char)) : String :=
  String.intercalate "| " (xs.map (fun x => "'" ++ String.mk x ++ "'"))

/-- Embedding of `CompilationEngine.add_keywords`. -/
def addKeywords (kws : List (List Char)) : M Unit := do
  stepIfSafe
  let s ← getS
  if tokenTypeF s.tok.token = some .keywordT ∧ s.tok.token ∈ kws then
    pushBody "keyword" id
  else
    throwC .keywordE ("Expected " ++ expectList kws)

/-- Embedding of `CompilationEngine.add_symbols`; both the comparison and the stored text
use the XML-escaped symbol. -/
def addSymbols (syms : List (List Char)) : M Unit := do
  stepIfSafe
  let s ← getS
  if tokenTypeF s.tok.token = some .symbolT ∧ symbolEsc s.tok.token ∈ syms then
    pushBody "symbol" symbolEsc
  else
    throwC .symbolE ("Expected " ++ expectList syms)

/-- Embedding of `CompilationEngine.add_identifier`; the failure is a bare `CompileError`. -/
def addIdentifier (what : String) : M Unit := do
  stepIfSafe
  let s ← getS
  if tokenTypeF s.tok.token = some .identifierT then
    pushBody "identifier" id
  else
    throwC .baseE ("Expected a " ++ what)

/-- Embedding of `CompilationEngine.add_type`; the expectation message interpolates the
numeric `token_types` constants, as the code does. -/
def addType (void : Bool) : M Unit := do
  stepIfSafe
  let s ← getS
  let valid := [toL "int", toL "char", toL "boolean"] ++
    (if void then [toL "void"] else [])
  if tokenTypeF s.tok.token = some .keywordT ∧ s.tok.token ∈ valid then
    pushBody "keyword" id
  else if tokenTypeF s.tok.token = some .identifierT then
    pushBody "identifier" id
  else
    throwC .typeE
      (if void then "Expected '11'| '13'| '12'| '14'| 'className'"
       else "Expected '11'| '13'| '12'| 'className'")

/-- The escaped operator alternatives passed by `add_op_or_unary_op`. -/
def opSyms : List (List Char) :=
  [toL "+", toL "-", toL "*", toL "/", toL "&amp;", toL "|", toL "&lt;",
   toL "&gt;", toL "="]

/-- Embedding of `CompilationEngine.add_op_or_unary_op`. -/
def addOp (unary : Bool) : M Unit :=
  if unary then
    fun s =>
      match addSymbols [toL "-", toL "~"] s with
      | .err (.compile e) s' =>
        .err (.compile ⟨.opE, "Expected an operator: " ++ e.msg⟩) s'
      | r => r
  else
    fun s =>
      match addSymbols opSyms s with
      | .err (.compile e) s' =>
        .err (.compile ⟨.opE, "Expected an operator: " ++ e.msg⟩) s'
      | r => r

/-- Embedding of `CompilationEngine.write_body`: drain the queue, one leaf line per entry,
each at the current indentation. -/
def writeBody : M Unit := fun s =>
  .ok () { s with out := s.out ++ s.body.map (fun p => Ev.leaf p.1 p.2 s.indent),
                  body := [] }

/-- Embedding of `CompilationEngine.write_non_terminal_start`: opening tag at the current
indentation, indent increases by 2, queue flushed at the new indentation. -/
def writeNTStart (name : String) : M Unit := fun s =>
  writeBody { s with out := s.out ++ [Ev.openT name s.indent],
                     indent := s.indent + 2 }

/-- Embedding of `CompilationEngine.write_non_terminal_end`: queue flushed at the current
indentation, indent decreases by 2, closing tag at the new indentation. -/
def writeNTEnd (name : String) : M Unit := fun s =>
  .ok () { s with
    out := (s.out ++ s.body.map (fun p => Ev.leaf p.1 p.2 s.indent)) ++
      [Ev.closeT name (s.indent - 2)],
    body := [], indent := s.indent - 2 }

/-- Embedding of `CompilationEngine.write_non_terminal`. -/
def writeNT (name : String) : M Unit := do
  writeNTStart name
  writeNTEnd name

/-- Embedding of `try m except CompileError as ex: h ex`. -/
def catchCE (m : M Unit) (h : CErr → M Unit) : M Unit := fun s =>
  match m s with
  | .err (.compile e) s' => h e s'
  | r => r

/-- Embedding of `try m except CompileError as ex: raise <k>(pre + str(ex))`. -/
def wrapCE (m : M Unit) (k : EKind) (pre : String) : M Unit := fun s =>
  match m s with
  | .err (.compile e) s' => .err (.compile ⟨k, pre ++ e.msg⟩) s'
  | r => r

/-- Embedding of `try m except <kind k>: onFail` followed by `cont` when `m` succeeded
(other errors propagate). -/
def attempt (k : EKind) (m : M Unit) (onFail cont : M Unit) : M Unit := fun s =>
  match m s with
  | .ok _ s' => cont s'
  | .err (.compile e) s' =>
    if e.kind = k then onFail s' else .err (.compile e) s'
  | .err e s' => .err e s'

/-- The mutually recursive `compile_*` routines and their `while True` loops. -/
inductive FnId where
  | cls
  | clsVarLoop
  | clsVarDec
  | subrLoop
  | subr
  | paramList
  | paramLoop
  | varDec
  | varDecLoop
  | subrBody
  | stmts
  | stmtLoop
  | doS
  | letS
  | whileS
  | returnS
  | ifS
  | expr
  | opLoopF
  | term
  | exprList
  | exprListLoop
  | subrCall
  | typeVars
  | varsLoop
deriving DecidableEq

/-- Embedding of `compile_class`. -/
def bodyCls (r : FnId → M Unit) : M Unit := do
  addKeywords [toL "class"]
  addIdentifier "class name"
  addSymbols [['\x7b']]
  writeNTStart "class"
  r .clsVarLoop
  r .subrLoop
  addSymbols [['\x7d']]
  writeNTEnd "class"

/-- The classVarDec* loop of `compile_class`: attempt the sub-rule, treating
its `CompileKeywordError` as loop termination. -/
def bodyClsVarLoop (r : FnId → M Unit) : M Unit :=
  attempt .keywordE (r .clsVarDec) (pure ()) (r .clsVarLoop)

/-- Embedding of `compile_class_var_dec`. -/
def bodyClsVarDec (r : FnId → M Unit) : M Unit := do
  addKeywords [toL "static", toL "field"]
  wrapCE (r .typeVars) .classVarDecE
    "Expected a complete static  or a field declaration: "
  writeNT "classVarDec"

/-- The subroutineDec* loop of `compile_class`. -/
def bodySubrLoop (r : FnId → M Unit) : M Unit :=
  attempt .keywordE (r .subr) (pure ()) (r .subrLoop)

/-- The section of `compile_subroutine` inside its `try`. -/
def innerSubr (r : FnId → M Unit) : M Unit := do
  addType true
  addIdentifier "subroutine name"
  addSymbols [toL "("]
  writeNTStart "subroutineDec"
  r .paramList
  addSymbols [toL ")"]
  writeBody
  r .subrBody

/-- Embedding of `compile_subroutine`. -/
def bodySubr (r : FnId → M Unit) : M Unit := do
  addKeywords [toL "constructor", toL "function", toL "method"]
  wrapCE (innerSubr r) .subroutineE
    "Expected a complete method, function or constructor declaration: "
  writeNTEnd "subroutineDec"

/-- The loop of `compile_parameter_list`: a `CompileTypeError` from the type
step or a `CompileSymbolError` from the comma step terminates the loop; a
failed identifier step is wrapped. -/
def bodyParamLoop (r : FnId → M Unit) : M Unit :=
  attempt .typeE (addType false) (pure ())
    (do
      wrapCE (addIdentifier "variable name") .parameterListE
        "Expected a complete parameter list declaration: "
      attempt .symbolE (addSymbols [toL ","]) (pure ()) (r .paramLoop))

/-- Embedding of `compile_parameter_list`. -/
def bodyParamList (r : FnId → M Unit) : M Unit := do
  r .paramLoop
  writeNT "parameterList"

/-- Embedding of `compile_var_dec`. -/
def bodyVarDec (r : FnId → M Unit) : M Unit := do
  addKeywords [toL "var"]
  wrapCE (r .typeVars) .varDecE "Expected a complete variable declaration: "
  writeNT "varDec"

/-- The varDec* loop of `compile_subroutine_body`. -/
def bodyVarDecLoop (r : FnId → M Unit) : M Unit :=
  attempt .keywordE (r .varDec) (pure ()) (r .varDecLoop)

/-- The section of `compile_subroutine_body` inside its `try`. -/
def innerSubrBody (r : FnId → M Unit) : M Unit := do
  addSymbols [['\x7b']]
  writeNTStart "subroutineBody"
  r .varDecLoop
  r .stmts
  addSymbols [['\x7d']]

/-- Embedding of `compile_subroutine_body`. -/
def bodySubrBody (r : FnId → M Unit) : M Unit := do
  wrapCE (innerSubrBody r) .subroutineBodyE
    "Expected a complete subroutine body declaration: "
  writeNTEnd "subroutineBody"

/-- Embedding of `compile_statements`: an already-committed `{` as current token is stepped
over without a leaf entry (`f.advance()` directly). -/
def bodyStmts (r : FnId → M Unit) : M Unit := do
  writeNTStart "statements"
  let s ← getS
  if tokenTypeF s.tok.token = some .symbolT ∧ symbolEsc s.tok.token = ['\x7b'] then
    advanceClear
  else
    pure ()
  r .stmtLoop
  writeNTEnd "statements"

/-- The statement loop of `compile_statements`: dispatch on the leading
keyword, raising a `CompileKeywordError` for a non-statement keyword. -/
def bodyStmtLoop (r : FnId → M Unit) : M Unit := do
  let s ← getS
  if tokenTypeF s.tok.token = some .keywordT then do
    (if s.tok.token = toL "let" then r .letS
     else if s.tok.token = toL "if" then r .ifS
     else if s.tok.token = toL "while" then r .whileS
     else if s.tok.token = toL "do" then r .doS
     else if s.tok.token = toL "return" then r .returnS
     else throwC .keywordE "Expected let | if | while | do | return")
    stepIfSafe
    r .stmtLoop
  else
    pure ()

/-- The section of `compile_do` inside its `try`. -/
def innerDo (r : FnId → M Unit) : M Unit := do
  addKeywords [toL "do"]
  writeNTStart "doStatement"
  r .subrCall
  addSymbols [toL ";"]

/-- Embedding of `compile_do`. -/
def bodyDo (r : FnId → M Unit) : M Unit := do
  wrapCE (innerDo r) .doE "Expected a complete do statement: "
  writeNTEnd "doStatement"

/-- The section of `compile_let` inside its `try`; the optional index is
probed by attempting `[` and treating its `CompileSymbolError` as absence. -/
def innerLet (r : FnId → M Unit) : M Unit := do
  addKeywords [toL "let"]
  addIdentifier "variable name"
  writeNTStart "letStatement"
  attempt .symbolE (do addSymbols [toL "["]; writeBody) (pure ())
    (do r .expr; addSymbols [toL "]"])
  addSymbols [toL "="]
  writeBody
  r .expr
  addSymbols [toL ";"]

/-- Embedding of `compile_let`. -/
def bodyLet (r : FnId → M Unit) : M Unit := do
  wrapCE (innerLet r) .letE "Expected a complete let statement: "
  writeNTEnd "letStatement"

/-- The section of `compile_while` inside its `try`. -/
def innerWhile (r : FnId → M Unit) : M Unit := do
  addKeywords [toL "while"]
  addSymbols [toL "("]
  writeNTStart "whileStatement"
  r .expr
  addSymbols [toL ")"]
  addSymbols [['\x7b']]
  writeBody
  r .stmts
  addSymbols [['\x7d']]

/-- Embedding of `compile_while` (the source spells the message `Exprected`). -/
def bodyWhile (r : FnId → M Unit) : M Unit := do
  wrapCE (innerWhile r) .whileE "Exprected a complete while statement: "
  writeNTEnd "whileStatement"

/-- The section of `compile_return` inside its `try`: the terminator is
attempted first; on its failure an expression is attempted, a
`CompileExpressionError` from it is swallowed, then the terminator again. -/
def innerReturn (r : FnId → M Unit) : M Unit := do
  addKeywords [toL "return"]
  writeNTStart "returnStatement"
  attempt .symbolE (addSymbols [toL ";"])
    (do
      attempt .expressionE (r .expr) (pure ()) (pure ())
      addSymbols [toL ";"])
    (pure ())

/-- Embedding of `compile_return`. -/
def bodyReturn (r : FnId → M Unit) : M Unit := do
  wrapCE (innerReturn r) .returnE "Expected a complete return statement: "
  writeNTEnd "returnStatement"

/-- The section of `compile_if` inside its `try`: after the first block the
cursor is advanced unconditionally to look for `else`. -/
def innerIf (r : FnId → M Unit) : M Unit := do
  addKeywords [toL "if"]
  addSymbols [toL "("]
  writeNTStart "ifStatement"
  r .expr
  addSymbols [toL ")"]
  addSymbols [['\x7b']]
  writeBody
  r .stmts
  addSymbols [['\x7d']]
  advanceClear
  let s ← getS
  if tokenTypeF s.tok.token = some .keywordT ∧ s.tok.token = toL "else" then do
    addKeywords [toL "else"]
    addSymbols [['\x7b']]
    writeBody
    r .stmts
    addSymbols [['\x7d']]
  else
    pure ()

/-- Embedding of `compile_if`. -/
def bodyIf (r : FnId → M Unit) : M Unit := do
  wrapCE (innerIf r) .ifE "Expected a complete if statement: "
  writeNTEnd "ifStatement"

/-- The section of `compile_expression` inside its `try`. -/
def innerExpr (r : FnId → M Unit) : M Unit := do
  r .term
  r .opLoopF

/-- Embedding of `compile_expression`. -/
def bodyExpr (r : FnId → M Unit) : M Unit := do
  writeNTStart "expression"
  wrapCE (innerExpr r) .expressionE "Expected a complete expression: "
  writeNTEnd "expression"

/-- The (op term)* loop of `compile_expression`: a `CompileOpError` ends it. -/
def bodyOpLoop (r : FnId → M Unit) : M Unit :=
  attempt .opE (do addOp false; writeBody; r .term) (pure ()) (r .opLoopF)

/-- The dispatch of `compile_term` after its opening tag. -/
def termDispatch (r : FnId → M Unit) : M Unit := do
  stepIfSafe
  let s ← getS
  if tokenTypeF s.tok.token = some .intConstT then
    pushBody "integerConstant" (fun t => natToDec (intValF t))
  else if tokenTypeF s.tok.token = some .stringConstT then
    pushBody "stringConstant" strValF
  else if tokenTypeF s.tok.token = some .keywordT then
    wrapCE (addKeywords [toL "true", toL "false", toL "null", toL "this"])
      .keywordConstantE "Expected a keyword constant: "
  else if tokenTypeF s.tok.token = some .identifierT then do
    addIdentifier "variable name | subroutine name | class name"
    advanceClear
    let s2 ← getS
    if tokenTypeF s2.tok.token = some .symbolT then
      if symbolEsc s2.tok.token = toL "[" then do
        addSymbols [toL "["]
        writeBody
        r .expr
        addSymbols [toL "]"]
      else if symbolEsc s2.tok.token = toL "(" then do
        addSymbols [toL "("]
        writeBody
        r .exprList
        addSymbols [toL ")"]
      else if symbolEsc s2.tok.token = toL "." then do
        addSymbols [toL "."]
        writeBody
        r .subrCall
      else
        pure ()
    else
      pure ()
  else if tokenTypeF s.tok.token = some .symbolT then
    if symbolEsc s.tok.token = toL "(" then do
      addSymbols [toL "("]
      writeBody
      r .expr
      addSymbols [toL ")"]
    else if symbolEsc s.tok.token = toL "-" ∨ symbolEsc s.tok.token = toL "~" then do
      addOp true
      writeBody
      r .term
    else
      pure ()
  else
    pure ()

/-- Embedding of `compile_term`: no failure of its own; symbols other than `(`, `-`, `~`
in term position fall through the dispatch (the term-level raise is commented
out in the source). -/
def bodyTerm (r : FnId → M Unit) : M Unit := do
  writeNTStart "term"
  termDispatch r
  writeNTEnd "term"

/-- Embedding of `compile_expression_list`. -/
def bodyExprList (r : FnId → M Unit) : M Unit := do
  writeNTStart "expressionList"
  stepIfSafe
  r .exprListLoop
  writeNTEnd "expressionList"

/-- The loop of `compile_expression_list`, with the code's guard
`token_type() == SYMBOL and symbol() != ')' or token_type() != SYMBOL`. -/
def bodyExprListLoop (r : FnId → M Unit) : M Unit := do
  let s ← getS
  if (tokenTypeF s.tok.token = some .symbolT ∧ symbolEsc s.tok.token ≠ toL ")")
      ∨ tokenTypeF s.tok.token ≠ some .symbolT then
    attempt .expressionE (r .expr) (pure ())
      (attempt .symbolE (do addSymbols [toL ","]; writeBody) (pure ())
        (r .exprListLoop))
  else
    pure ()

/-- The section of `add_subroutine_call` inside its `try`. -/
def innerSubrCall (r : FnId → M Unit) : M Unit := do
  addIdentifier "subroutine name | class name | variable name"
  addSymbols [toL "(", toL "."]
  writeBody
  let s ← getS
  if tokenTypeF s.tok.token = some .symbolT then
    if symbolEsc s.tok.token = toL "(" then do
      r .exprList
      addSymbols [toL ")"]
    else if symbolEsc s.tok.token = toL "." then
      r .subrCall
    else
      pure ()
  else
    pure ()

/-- Embedding of `add_subroutine_call`. -/
def bodySubrCall (r : FnId → M Unit) : M Unit :=
  wrapCE (innerSubrCall r) .subroutineCallE "Expected a complete subroutine call: "

/-- Embedding of `add_type_var_name_var_name`, first part. -/
def bodyTypeVars (r : FnId → M Unit) : M Unit := do
  addType false
  addIdentifier "variable name"
  r .varsLoop

/-- The `(, varName)* ;` loop of `add_type_var_name_var_name`. -/
def bodyVarsLoop (r : FnId → M Unit) : M Unit := do
  addSymbols [toL ",", toL ";"]
  let s ← getS
  if symbolEsc s.tok.token = toL ";" then
    pure ()
  else do
    addIdentifier "variable name"
    r .varsLoop

/-- The engine: one fuel-indexed dispatcher over all routines. -/
def run : Nat → FnId → M Unit
  | 0, _ => fun s => .err (.stop "model fuel exhausted") s
  | n + 1, id =>
    match id with
    | .cls => bodyCls (run n)
    | .clsVarLoop => bodyClsVarLoop (run n)
    | .clsVarDec => bodyClsVarDec (run n)
    | .subrLoop => bodySubrLoop (run n)
    | .subr => bodySubr (run n)
    | .paramList => bodyParamList (run n)
    | .paramLoop => bodyParamLoop (run n)
    | .varDec => bodyVarDec (run n)
    | .varDecLoop => bodyVarDecLoop (run n)
    | .subrBody => bodySubrBody (run n)
    | .stmts => bodyStmts (run n)
    | .stmtLoop => bodyStmtLoop (run n)
    | .doS => bodyDo (run n)
    | .letS => bodyLet (run n)
    | .whileS => bodyWhile (run n)
    | .returnS => bodyReturn (run n)
    | .ifS => bodyIf (run n)
    | .expr => bodyExpr (run n)
    | .opLoopF => bodyOpLoop (run n)
    | .term => bodyTerm (run n)
    | .exprList => bodyExprList (run n)
    | .exprListLoop => bodyExprListLoop (run n)
    | .subrCall => bodySubrCall (run n)
    | .typeVars => bodyTypeVars (run n)
    | .varsLoop => bodyVarsLoop (run n)

/-- A fresh engine over a unit's lexemes (`CompilationEngine.__init__`). -/
def initEng (ls : List (List Char)) : Eng :=
  { tok := initTok ls, indent := 0, body := [], safe := true, out := [],
    committed := [] }

/-- Embedding of `compile_class`, the entry point. -/
def compileClass (n : Nat) : M Unit := run n .cls

/-- Embedding of `compile_statements`. -/
def compileStatements (n : Nat) : M Unit := run n .stmts

/-- Embedding of `compile_term`. -/
def compileTerm (n : Nat) : M Unit := run n .term

/-- The leaf texts of a trace, in emission order. -/
def leafVals : List Ev → List (List Char)
  | [] => []
  | .leaf _ v _ :: rest => v :: leafVals rest
  | _ :: rest => leafVals rest

/-- Well-formed nesting check: an opening tag must sit at the current depth
and pushes one level (2 spaces); a closing tag must name the innermost open
tag, sit at that tag's opening depth, and pop one level without the depth
going negative (the current depth must be the opening depth plus 2); leaves
sit at the current depth; at the end every tag is closed. -/
def nestOk : List Ev → List (String × Int) → Int → Bool
  | [], [], _ => true
  | [], _ :: _, _ => false
  | .openT nm i :: rest, st, d => i = d && nestOk rest ((nm, i) :: st) (d + 2)
  | .closeT nm i :: rest, (nm0, i0) :: st, d =>
    nm = nm0 && i = i0 && d = i0 + 2 && nestOk rest st i0
  | .closeT _ _ :: _, [], _ => false
  | .leaf _ _ i :: rest, st, d => i = d && nestOk rest st d

/-- A statement context over the given lexemes: the first lexeme has been
promoted to current and the cursor flag is clear, exactly how
`compile_statements` finds the world when entered from a subroutine body. -/
def stmtCtx (ls : List (List Char)) : Eng :=
  match advT (initTok ls) with
  | .ok t =>
    { tok := t, indent := 0, body := [], safe := false, out := [],
      committed := [] }
  | .error _ => initEng ls

/-- Did the computation return normally? -/
def resOk : Res Unit → Bool
  | .ok _ _ => true
  | .err _ _ => false

/-- The trace written when the computation stopped. -/
def resOut : Res Unit → List Ev
  | .ok _ s => s.out
  | .err _ s => s.out

/-- The `CompileError` kind of a failed computation, if it failed with one. -/
def resErrKind : Res Unit → Option EKind
  | .err (.compile e) _ => some e.kind
  | _ => none

/-- The `CompileError` message of a failed computation. -/
def resErrMsg : Res Unit → Option String
  | .err (.compile e) _ => some e.msg
  | _ => none

/-! ## Claim C2: well-formed nesting of the emitted trace -/

/-- A unit that compiles without error yet yields an ill-nested trace: inside
`compile_return` the malformed expression `x [ 1` fails after `<expression>`
and `<term>` were opened, `compile_return` swallows the
`CompileExpressionError`, retries the `;` successfully, and compilation
finishes normally with those two tags never closed. -/
def c2unit : List Char :=
  toL "class Main \x7b function void f ( ) \x7b return x [ 1 ; \x7d \x7d"

/-! ## Claim C1: the leaf/lexeme round trip -/

/-- A unit containing a string constant: it compiles without error, but the
`stringConstant` leaf holds `string_val()` — the lexeme without its double
quotes — so the emitted leaf texts do not reproduce the lexeme sequence. -/
def c1unit : List Char :=
  toL "class Main \x7b function void f ( ) \x7b let x = \"a\" ; \x7d \x7d"

/-! ## Claim C1, amended: the general leaf/lexeme correspondence

The invariant ties the trace and the pending queue to the ghost `committed`
list, and `committed` to the ghost `consumed` list of the token stream. -/

/-- The buffered lookahead as a (zero- or one-element) list. -/
def bufOf (t : Tok) : List (List Char) :=
  if t.nextToken = [] then [] else [t.nextToken]

/-- The engine invariant relative to the unit's full lexeme list `A`. -/
structure INV (A : List (List Char)) (s : Eng) : Prop where
  hout : leafVals s.out ++ s.body.map (fun p => p.2) = s.committed.map decodeTok
  hcur : (s.safe = true ∧ s.committed.Sublist s.tok.consumed) ∨
    (s.safe = false ∧
      ((∃ pre, s.tok.consumed = pre ++ [s.tok.token] ∧ s.committed.Sublist pre) ∨
       (s.tok.token = [] ∧ s.committed.Sublist s.tok.consumed)))
  htok : s.tok.consumed ++ (bufOf s.tok ++ s.tok.queue) = A
  hvirgin : s.tok.nextToken = [] → s.tok.more = true →
    s.tok.token = [] ∧ s.tok.consumed = []
  hqne : ∀ x ∈ s.tok.queue, x ≠ []

/-- The state a computation stopped in, error or not. -/
def resStateU {α : Type} : Res α → Eng
  | .ok _ s => s
  | .err _ s => s

/-- Preservation of the invariant by a computation. -/
def PresA {α : Type} (A : List (List Char)) (m : M α) : Prop :=
  ∀ s, INV A s → INV A (resStateU (m s))

/-! ## Claim C3, C4, C5: tokenizer-level evaluations -/

/-- C3: the claim says a digit string classifies as an integer constant iff its
decimal value lies in 0..32767.  The boundary examples hold (`32767` yes,
`32768` no), but the `INT_CONST` lookbehind compares five-digit numbers
digit-wise against `32767`, so the in-range token `31999` (third digit `9 > 7`)
matches no pattern at all and `token_type` returns `None`. -/
theorem c3_int_const_digitwise_bug :
    tokenTypeF (toL "32767") = some .intConstT ∧
    tokenTypeF (toL "32768") = none ∧
    intValF (toL "31999") = 31999 ∧ 31999 ≤ 32767 ∧
    tokenTypeF (toL "31999") = none := by decide

/-- C4: the claim says every lexeme classified as an identifier starts with an
ASCII letter or underscore.  The `IDENTIFIER` class `[A-z_]` also covers the
ASCII range between `Z` and `a`, so the one-character token `^` is classified
as an identifier (and the combined scanner really emits it as a lexeme),
although `^` is neither a letter nor an underscore. -/
theorem c4_identifier_first_char_bug :
    tokenTypeF (toL "^") = some .identifierT ∧
    matchLen (toL "^ foo") = some 1 ∧
    ¬ (('A' ≤ '^' ∧ '^' ≤ 'Z') ∨ ('a' ≤ '^' ∧ '^' ≤ 'z') ∨ '^' = '_') := by
  decide

/-- C5: the claim says a lexeme's classification is computed at most once and
later `token_type()` calls use the cache, also after a typed accessor ran.  In
the code each accessor *replaces* the whole per-token cache entry, so for the
lexeme `class`: the first `token_type()` matches the patterns, `key_word()`
then overwrites the entry with a `key_word`-only dict, and the next
`token_type()` suffers a `KeyError` and matches the five patterns again. -/
theorem c5_cache_clobbered_bug :
    (cacheTokenType [] (toL "class")).2.2 = true ∧
    (cacheKeyWord (cacheTokenType [] (toL "class")).2.1 (toL "class")).2.2 = false ∧
    cacheGet (cacheKeyWord (cacheTokenType [] (toL "class")).2.1 (toL "class")).2.1
        (toL "class") = some (.keyWordV (toL "class")) ∧
    (cacheTokenType
        (cacheKeyWord (cacheTokenType [] (toL "class")).2.1 (toL "class")).2.1
        (toL "class")).2.2 = true := by decide

/-- A stream marked exhausted is left unchanged by the drive loop. -/
theorem driveAux_exhausted (f : Nat) (t : Tok) (acc : List (List Char))
    (h : t.more = false) : driveAux (f + 1) t acc = (acc, t, false) := by
  simp [driveAux, h]

/-- Driving a live stream collects exactly the pending lexemes, in order, and
ends with the stream marked exhausted. -/
theorem driveAux_ok : ∀ (fuel : Nat) (t : Tok) (acc : List (List Char)),
    t.more = true → restOf t ≠ [] → (∀ x ∈ restOf t, x ≠ []) →
    (restOf t).length < fuel →
    ∃ fin, driveAux fuel t acc = (acc ++ restOf t, fin, false) ∧
      fin.more = false := by
  intro fuel
  induction fuel with
  | zero => intro t acc _ _ _ h4; exact absurd h4 (Nat.not_lt_zero _)
  | succ f ih =>
    intro t acc h1 h2 h3 h4
    obtain ⟨tok, nt, q, mr, ln, cons⟩ := t
    simp only at h1
    subst h1
    cases nt with
    | nil =>
      cases q with
      | nil => simp [restOf] at h2
      | cons q qs =>
        have hqne : q ≠ [] := h3 q (by simp [restOf])
        cases qs with
        | nil =>
          obtain ⟨f', rfl⟩ : ∃ f', f = f' + 1 := by
            refine ⟨f - 1, ?_⟩
            simp [restOf] at h4
            omega
          refine ⟨⟨q, [], [], false, ln + 1, cons ++ [q]⟩, ?_, rfl⟩
          simp [driveAux, advT, restOf, driveAux_exhausted]
        | cons q2 qs2 =>
          have hq2 : q2 ≠ [] := h3 q2 (by simp [restOf])
          obtain ⟨fin, hrun, hfin⟩ :=
            ih ⟨q, q2, qs2, true, ln + 1, cons ++ [q]⟩ (acc ++ [q]) rfl
              (by simp [restOf, hq2])
              (by
                intro x hx
                refine h3 x ?_
                simp only [restOf] at hx ⊢
                simp [hq2] at hx
                simp
                tauto)
              (by
                simp only [restOf] at h4 ⊢
                simp [hq2] at h4 ⊢
                omega)
          refine ⟨fin, ?_, hfin⟩
          simp only [restOf] at hrun ⊢
          simp only [driveAux, advT]
          simp [hq2] at hrun ⊢
          simpa using hrun
    | cons c ncs =>
      cases q with
      | nil =>
        obtain ⟨f', rfl⟩ : ∃ f', f = f' + 1 := by
          refine ⟨f - 1, ?_⟩
          simp [restOf] at h4
          omega
        refine ⟨⟨c :: ncs, [], [], false, ln + 1, cons ++ [c :: ncs]⟩, ?_, rfl⟩
        simp [driveAux, advT, restOf, driveAux_exhausted]
      | cons q qs =>
        have hqne : q ≠ [] := h3 q (by simp [restOf])
        obtain ⟨fin, hrun, hfin⟩ :=
          ih ⟨c :: ncs, q, qs, true, ln + 1, cons ++ [c :: ncs]⟩
            (acc ++ [c :: ncs]) rfl
            (by simp [restOf, hqne])
            (by
              intro x hx
              refine h3 x ?_
              simp only [restOf] at hx ⊢
              simp [hqne] at hx
              simp
              tauto)
            (by
              simp only [restOf] at h4 ⊢
              simp [hqne] at h4 ⊢
              omega)
        refine ⟨fin, ?_, hfin⟩
        simp only [restOf] at hrun ⊢
        simp only [driveAux, advT]
        simp [hqne] at hrun ⊢
        simpa using hrun

/-- C6: the advance() contract.  (1) Over a unit with at least one lexeme,
exhaustively calling `advance()` while `has_more_tokens()` is true promotes
every lexeme in order — including the final one, whose promoting call still
succeeds — and leaves the stream marked exhausted.  (2) Any `advance()` call
on a live stream with a buffered lookahead promotes that lookahead to current
and buffers the next queued lexeme; when nothing remains to buffer the stream
is marked exhausted.  (3) `advance()` on an exhausted stream raises
`StopIteration` instead of producing a token. -/
theorem c6_advance_contract :
    (∀ ls : List (List Char), ls ≠ [] → (∀ x ∈ ls, x ≠ []) →
      ∃ fin, driveAux (ls.length + 1) (initTok ls) [] = (ls, fin, false) ∧
        fin.more = false ∧ advT fin = .error (.stop "No more tokens")) ∧
    (∀ t : Tok, t.more = true → t.nextToken ≠ [] → ∃ t2, advT t = .ok t2 ∧
      t2.token = t.nextToken ∧
      t2.nextToken = (match t.queue with | [] => [] | q :: _ => q) ∧
      (t.queue = [] → t2.more = false)) ∧
    (∀ t : Tok, t.more = false → advT t = .error (.stop "No more tokens")) := by
  refine ⟨?_, ?_, ?_⟩
  · intro ls h1 h2
    have hr : restOf (initTok ls) = ls := by simp [restOf, initTok]
    obtain ⟨fin, hrun, hfin⟩ :=
      driveAux_ok (ls.length + 1) (initTok ls) [] rfl
        (by rw [hr]; exact h1) (by rw [hr]; exact h2) (by rw [hr]; omega)
    exact ⟨fin, by simpa [hr] using hrun, hfin, by simp [advT, hfin]⟩
  · intro t h1 h2
    obtain ⟨tok, nt, q, mr, ln, cons⟩ := t
    simp only at h1 h2 ⊢
    subst h1
    cases q with
    | nil =>
      refine ⟨⟨nt, [], [], false, ln + 1, cons ++ [nt]⟩, ?_, rfl, rfl, fun _ => rfl⟩
      simp [advT, h2]
    | cons q qs =>
      by_cases hq : q = []
      · subst hq
        refine ⟨⟨nt, [], qs, false, ln + 1, cons ++ [nt]⟩, ?_, rfl, rfl, ?_⟩
        · simp [advT, h2]
        · intro h
          simp at h
      · refine ⟨⟨nt, q, qs, true, ln + 1, cons ++ [nt]⟩, ?_, rfl, rfl, ?_⟩
        · simp [advT, h2, hq]
        · intro h
          simp at h
  · intro t h
    simp [advT, h]

/-- Witness for C6 at the two-lexeme unit `a b`. -/
theorem c6_witness :
    ∃ fin, driveAux ([toL "a", toL "b"].length + 1) (initTok [toL "a", toL "b"]) [] =
      ([toL "a", toL "b"], fin, false) ∧ fin.more = false ∧
      advT fin = .error (.stop "No more tokens") :=
  c6_advance_contract.1 [toL "a", toL "b"] (by decide) (by decide)

/-! ## Claim C10: unmatched characters are silently skipped -/

/-- Every keyword alternative is a nonempty literal. -/
theorem kwList_ne_nil : ∀ k ∈ kwList, k ≠ [] := by decide

/-- A successful keyword scan reports a positive length. -/
theorem kwScan_pos : ∀ (ks : List (List Char)) (cs : List Char) (n : Nat),
    (∀ k ∈ ks, k ≠ []) → kwScan ks cs = some n → 1 ≤ n := by
  intro ks
  induction ks with
  | nil => intro cs n _ h; simp [kwScan] at h
  | cons k ks ih =>
    intro cs n hne h
    rcases h' : isPre k cs with _ | _
    · rw [kwScan, h'] at h
      simp at h
      exact ih cs n (fun x hx => hne x (List.mem_cons_of_mem _ hx)) h
    · rw [kwScan, h'] at h
      simp at h
      have := hne k (List.mem_cons_self _ _)
      cases k with
      | nil => simp at this
      | cons a as_ => simp [← h]

/-- Any match of the combined pattern covers at least one character. -/
theorem matchLen_pos (cs : List Char) (n : Nat) (h : matchLen cs = some n) :
    1 ≤ n := by
  rw [matchLen.eq_def] at h
  rcases hk : kwScan kwList cs with _ | m
  · rw [hk] at h
    cases cs with
    | nil => simp at h
    | cons c rest =>
      simp only at h
      split at h
      · simp at h
        omega
      · split at h
        · simp at h
          omega
        · split at h
          · split at h
            · simp at h
              omega
            · simp at h
          · split at h
            · simp at h
              omega
            · simp at h
  · rw [hk] at h
    simp at h
    subst h
    exact kwScan_pos kwList cs m kwList_ne_nil hk

/-- Unfolding equation for the scanner at a nonempty line with fuel left. -/
theorem findAllAux_succ (f : Nat) (c : Char) (rest : List Char) :
    findAllAux (f + 1) (c :: rest) =
      match matchLen (c :: rest) with
      | some n => (c :: rest).take n :: findAllAux f ((c :: rest).drop n)
      | none => findAllAux f rest := rfl

/-- Every lexeme the combined scanner emits is nonempty. -/
theorem findAllAux_ne_nil : ∀ (fuel : Nat) (cs : List Char) (x : List Char),
    x ∈ findAllAux fuel cs → x ≠ [] := by
  intro fuel
  induction fuel with
  | zero => intro cs x h; simp [findAllAux] at h
  | succ f ih =>
    intro cs x h
    cases cs with
    | nil => simp [findAllAux] at h
    | cons c rest =>
      cases hm : matchLen (c :: rest) with
      | none =>
        rw [findAllAux_succ, hm] at h
        exact ih rest x h
      | some n =>
        rw [findAllAux_succ, hm] at h
        rcases List.mem_cons.mp h with h | h
        · have := matchLen_pos _ _ hm
          obtain ⟨n', rfl⟩ : ∃ n', n = n' + 1 := ⟨n - 1, by omega⟩
          subst h
          simp
        · exact ih _ x h

/-- C10: the lexer never raises a lexical error for unrecognizable characters.
Driving the token stream of any cleaned line (with at least one match) yields
exactly the substrings matched by the combined pattern, in order, with no
failure; characters such as `#` and `$` start no match of any of the five
patterns, at any position, so `finditer` silently skips them; and every match
the scanner emits is a nonempty substring. -/
theorem c10_lexer_skips_unmatched :
    (∀ line : List Char, findAll line ≠ [] →
      ∃ fin, driveAux ((findAll line).length + 1) (initTok (findAll line)) [] =
        (findAll line, fin, false) ∧ fin.more = false) ∧
    (∀ rest : List Char, matchLen ('#' :: rest) = none) ∧
    (∀ rest : List Char, matchLen ('$' :: rest) = none) ∧
    (∀ line : List Char, ∀ x ∈ findAll line, x ≠ []) := by
  refine ⟨?_, fun rest => rfl, fun rest => rfl, ?_⟩
  · intro line hne
    have hr : restOf (initTok (findAll line)) = findAll line := by
      simp [restOf, initTok]
    obtain ⟨fin, hrun, hfin⟩ :=
      driveAux_ok ((findAll line).length + 1) (initTok (findAll line)) [] rfl
        (by rw [hr]; exact hne)
        (by rw [hr]; exact fun x hx => findAllAux_ne_nil _ _ x hx)
        (by rw [hr]; omega)
    exact ⟨fin, by simpa [hr] using hrun, hfin⟩
  · intro line x hx
    exact findAllAux_ne_nil _ _ x hx

/-- Witness for C10 at the line `let x# = $5;`, whose `#` and `$` are skipped. -/
theorem c10_witness :
    findAll (toL "let x# = $5;") = [toL "let", toL "x", toL "=", toL "5", toL ";"] ∧
    (∃ fin, driveAux ((findAll (toL "let x# = $5;")).length + 1)
        (initTok (findAll (toL "let x# = $5;"))) [] =
        (findAll (toL "let x# = $5;"), fin, false) ∧ fin.more = false) :=
  ⟨by decide, c10_lexer_skips_unmatched.1 (toL "let x# = $5;") (by decide)⟩

/-- C2: the claim (every opened nonterminal tag is closed exactly once at the
same indentation depth, one 2-space level per open/close, depth never
negative, for every unit compiling without error) fails on the code: `c2unit`
compiles without error and its trace flunks the nesting check. -/
theorem c2_unclosed_tags_bug :
    resOk (run 40 FnId.cls (initEng (findAll c2unit))) = true ∧
    nestOk (resOut (run 40 FnId.cls (initEng (findAll c2unit)))) [] 0 = false := by
  decide!

/-! ## Claim C8: the let statement and its terminator -/

/-- C8: in a statement context (current token promoted, followed by the
context's closing brace), `let x = 1;` parses successfully, and `let x = 1`
with the terminator omitted raises `CompileLetError`. -/
theorem c8_let_statement :
    resOk (compileStatements 20 (stmtCtx (findAll (toL "let x = 1 ; \x7d")))) = true ∧
    resErrKind (compileStatements 20 (stmtCtx (findAll (toL "let x = 1 \x7d")))) =
      some EKind.letE ∧
    resErrMsg (compileStatements 20 (stmtCtx (findAll (toL "let x = 1 \x7d")))) =
      some "Expected a complete let statement: Expected ';'" := by decide!

/-- C1 counterexample: `c1unit` compiles without error, exhaustive
`advance()` produces exactly its scanner matches (including the quoted lexeme
`"a"`), yet the concatenated leaf texts differ from that lexeme sequence. -/
theorem c1_counterexample :
    resOk (run 40 FnId.cls (initEng (findAll c1unit))) = true ∧
    (driveAux ((findAll c1unit).length + 1) (initTok (findAll c1unit)) []).1 =
      findAll c1unit ∧
    leafVals (resOut (run 40 FnId.cls (initEng (findAll c1unit)))) ≠
      findAll c1unit := by decide!

/-! ## Claim C7: the error taxonomy -/

/-- C7 counterexample: the spec's rule list includes *class*, but the class
rule has no failure kind of its own — `compile_class` wraps nothing, and a
unit whose first lexeme is not `class` fails with the terminal-level
`CompileKeywordError` and its bare expectation message. -/
theorem c7_counterexample :
    resErrKind (run 5 FnId.cls (initEng [toL "let"])) = some EKind.keywordE ∧
    resErrMsg (run 5 FnId.cls (initEng [toL "let"])) = some "Expected 'class'" := by
  decide!

/-! ## Claim C9: empty terms -/

/-- Unfolding of the monadic bind over `M`. -/
theorem bindM_def {α β : Type} (m : M α) (f : α → M β) (s : Eng) :
    (m >>= f) s =
      match m s with
      | .ok a s' => f a s'
      | .err e s' => .err e s' := rfl

/-- Unfolding of `pure` over `M`. -/
theorem pureM_def {α : Type} (a : α) (s : Eng) : (pure a : M α) s = .ok a s := rfl

/-- C9: `compile_term` never raises.  In term position (cursor flag clear,
pending queue empty, as `compile_expression` always arranges) with the current
token a symbol other than `(`, `-`, `~` — for example `;` or `)` — the routine
emits an open tag immediately followed by its close tag, with no leaf between
them, consumes nothing, raises nothing, and leaves every other component of
the state unchanged. -/
theorem c9_term_no_failure (n : Nat) (s : Eng)
    (h1 : s.safe = false)
    (h2 : tokenTypeF s.tok.token = some TType.symbolT)
    (h3 : symbolEsc s.tok.token ≠ toL "(")
    (h4 : symbolEsc s.tok.token ≠ toL "-")
    (h5 : symbolEsc s.tok.token ≠ toL "~")
    (h6 : s.body = []) :
    compileTerm (n + 1) s =
      .ok () { s with
        out := s.out ++ [Ev.openT "term" s.indent, Ev.closeT "term" s.indent] } := by
  show bodyTerm (run n) s = _
  rw [bodyTerm]
  simp only [bindM_def, writeNTStart, writeBody, h6, List.map_nil, List.append_nil]
  rw [termDispatch]
  simp only [bindM_def, stepIfSafe, h1, if_neg Bool.false_ne_true, getS, h2,
    pureM_def]
  simp only [h3, h4, h5, if_false, reduceCtorEq, if_neg, writeNTEnd,
    List.map_nil, List.append_nil, pureM_def, bindM_def]
  simp [Eng.mk.injEq, List.append_assoc]

/-- Witness for C9 at a state whose current token is `;`. -/
theorem c9_witness :
    compileTerm 1
      { tok := { token := [';'], nextToken := [], queue := [], more := false,
                 line := 2, consumed := [[';']] },
        indent := 4, body := [], safe := false, out := [], committed := [] } =
      .ok ()
        { tok := { token := [';'], nextToken := [], queue := [], more := false,
                   line := 2, consumed := [[';']] },
          indent := 4, body := [], safe := false,
          out := [Ev.openT "term" 4, Ev.closeT "term" 4], committed := [] } :=
  c9_term_no_failure 0 _ rfl (by decide) (by decide) (by decide) (by decide) rfl

/-- A failed wrapped section raises the wrapping kind with the prefixed
message, from the failure's state, whatever follows the `try`. -/
theorem wrap_then_err (inner : M Unit) (k : EKind) (pre : String) (cont : M Unit)
    {s s' : Eng} {e : CErr} (h : inner s = .err (.compile e) s') :
    (do wrapCE inner k pre; cont) s =
      .err (.compile ⟨k, pre ++ e.msg⟩) s' := by
  show (wrapCE inner k pre >>= fun _ => cont) s = _
  simp only [bindM_def, wrapCE, h]

/-- A failed leading step aborts the whole chain with the same error. -/
theorem bind_err {α β : Type} (m : M α) (f : α → M β) {s s' : Eng} {e : Err}
    (h : m s = .err e s') : (m >>= f) s = .err e s' := by
  simp only [bindM_def, h]

/-- A successful leading step hands its state to the continuation. -/
theorem bind_ok {α β : Type} (m : M α) (f : α → M β) {s s' : Eng} {a : α}
    (h : m s = .ok a s') : (m >>= f) s = f a s' := by
  simp only [bindM_def, h]

/-- The amended C7: the rule-specific failure kinds exist, pairwise distinct,
for every listed rule except *class*; each rule that wraps raises its own kind
with its expectation text followed by the sub-failure's message; the leading
keyword matchers of classVarDec and subroutineDec propagate their
`CompileKeywordError` unwrapped (loop termination), and the class rule, which
has no kind of its own, propagates its leading failure unchanged. -/
theorem c7_amended (n : Nat) (s : Eng) :
    [EKind.baseE, EKind.keywordE, EKind.symbolE, EKind.typeE,
     EKind.classVarDecE, EKind.subroutineE, EKind.parameterListE,
     EKind.subroutineBodyE, EKind.varDecE, EKind.letE, EKind.expressionE,
     EKind.opE, EKind.keywordConstantE, EKind.doE, EKind.subroutineCallE,
     EKind.returnE, EKind.ifE, EKind.whileE].Nodup ∧
    (match innerLet (run n) s with
     | .err (.compile e) s' =>
       run (n + 1) FnId.letS s =
         .err (.compile ⟨.letE, "Expected a complete let statement: " ++ e.msg⟩) s'
     | _ => True) ∧
    (match innerDo (run n) s with
     | .err (.compile e) s' =>
       run (n + 1) FnId.doS s =
         .err (.compile ⟨.doE, "Expected a complete do statement: " ++ e.msg⟩) s'
     | _ => True) ∧
    (match innerWhile (run n) s with
     | .err (.compile e) s' =>
       run (n + 1) FnId.whileS s =
         .err (.compile ⟨.whileE, "Exprected a complete while statement: " ++ e.msg⟩) s'
     | _ => True) ∧
    (match innerReturn (run n) s with
     | .err (.compile e) s' =>
       run (n + 1) FnId.returnS s =
         .err (.compile ⟨.returnE, "Expected a complete return statement: " ++ e.msg⟩) s'
     | _ => True) ∧
    (match innerIf (run n) s with
     | .err (.compile e) s' =>
       run (n + 1) FnId.ifS s =
         .err (.compile ⟨.ifE, "Expected a complete if statement: " ++ e.msg⟩) s'
     | _ => True) ∧
    (match innerSubrBody (run n) s with
     | .err (.compile e) s' =>
       run (n + 1) FnId.subrBody s =
         .err (.compile
           ⟨.subroutineBodyE,
            "Expected a complete subroutine body declaration: " ++ e.msg⟩) s'
     | _ => True) ∧
    (match innerSubrCall (run n) s with
     | .err (.compile e) s' =>
       run (n + 1) FnId.subrCall s =
         .err (.compile
           ⟨.subroutineCallE, "Expected a complete subroutine call: " ++ e.msg⟩) s'
     | _ => True) ∧
    (match addKeywords [toL "true", toL "false", toL "null", toL "this"] s with
     | .err (.compile e) s' =>
       wrapCE (addKeywords [toL "true", toL "false", toL "null", toL "this"])
           .keywordConstantE "Expected a keyword constant: " s =
         .err (.compile ⟨.keywordConstantE, "Expected a keyword constant: " ++ e.msg⟩) s'
     | _ => True) ∧
    (match addSymbols opSyms s with
     | .err (.compile e) s' =>
       addOp false s = .err (.compile ⟨.opE, "Expected an operator: " ++ e.msg⟩) s'
     | _ => True) ∧
    (match writeNTStart "expression" s with
     | .ok _ s1 =>
       (match innerExpr (run n) s1 with
        | .err (.compile e) s2 =>
          run (n + 1) FnId.expr s =
            .err (.compile ⟨.expressionE, "Expected a complete expression: " ++ e.msg⟩) s2
        | _ => True)
     | .err _ _ => True) ∧
    (match addKeywords [toL "static", toL "field"] s with
     | .err e s' => run (n + 1) FnId.clsVarDec s = .err e s'
     | .ok _ s1 =>
       (match run n FnId.typeVars s1 with
        | .err (.compile e) s2 =>
          run (n + 1) FnId.clsVarDec s =
            .err (.compile
              ⟨.classVarDecE,
               "Expected a complete static  or a field declaration: " ++ e.msg⟩) s2
        | _ => True)) ∧
    (match addKeywords [toL "var"] s with
     | .err e s' => run (n + 1) FnId.varDec s = .err e s'
     | .ok _ s1 =>
       (match run n FnId.typeVars s1 with
        | .err (.compile e) s2 =>
          run (n + 1) FnId.varDec s =
            .err (.compile
              ⟨.varDecE, "Expected a complete variable declaration: " ++ e.msg⟩) s2
        | _ => True)) ∧
    (match addKeywords [toL "constructor", toL "function", toL "method"] s with
     | .err e s' => run (n + 1) FnId.subr s = .err e s'
     | .ok _ s1 =>
       (match innerSubr (run n) s1 with
        | .err (.compile e) s2 =>
          run (n + 1) FnId.subr s =
            .err (.compile
              ⟨.subroutineE,
               "Expected a complete method, function or constructor declaration: "
                 ++ e.msg⟩) s2
        | _ => True)) ∧
    (match addType false s with
     | .ok _ s1 =>
       (match addIdentifier "variable name" s1 with
        | .err (.compile e) s2 =>
          run (n + 1) FnId.paramLoop s =
            .err (.compile
              ⟨.parameterListE,
               "Expected a complete parameter list declaration: " ++ e.msg⟩) s2
        | _ => True)
     | _ => True) ∧
    (match addKeywords [toL "class"] s with
     | .err e s' => run (n + 1) FnId.cls s = .err e s'
     | .ok _ _ => True) := by
  refine ⟨by decide, ?_, ?_, ?_, ?_, ?_, ?_, ?_, ?_, ?_, ?_, ?_, ?_, ?_, ?_, ?_⟩
  · cases h : innerLet (run n) s with
    | ok a s' => exact trivial
    | err e s' =>
      cases e with
      | stop m => exact trivial
      | compile ce => exact wrap_then_err _ _ _ _ h
  · cases h : innerDo (run n) s with
    | ok a s' => exact trivial
    | err e s' =>
      cases e with
      | stop m => exact trivial
      | compile ce => exact wrap_then_err _ _ _ _ h
  · cases h : innerWhile (run n) s with
    | ok a s' => exact trivial
    | err e s' =>
      cases e with
      | stop m => exact trivial
      | compile ce => exact wrap_then_err _ _ _ _ h
  · cases h : innerReturn (run n) s with
    | ok a s' => exact trivial
    | err e s' =>
      cases e with
      | stop m => exact trivial
      | compile ce => exact wrap_then_err _ _ _ _ h
  · cases h : innerIf (run n) s with
    | ok a s' => exact trivial
    | err e s' =>
      cases e with
      | stop m => exact trivial
      | compile ce => exact wrap_then_err _ _ _ _ h
  · cases h : innerSubrBody (run n) s with
    | ok a s' => exact trivial
    | err e s' =>
      cases e with
      | stop m => exact trivial
      | compile ce => exact wrap_then_err _ _ _ _ h
  · cases h : innerSubrCall (run n) s with
    | ok a s' => exact trivial
    | err e s' =>
      cases e with
      | stop m => exact trivial
      | compile ce =>
        show wrapCE (innerSubrCall (run n)) .subroutineCallE _ s = _
        simp only [wrapCE, h]
  · cases h : addKeywords [toL "true", toL "false", toL "null", toL "this"] s with
    | ok a s' => exact trivial
    | err e s' =>
      cases e with
      | stop m => exact trivial
      | compile ce => simp only [wrapCE, h]
  · cases h : addSymbols opSyms s with
    | ok a s' => exact trivial
    | err e s' =>
      cases e with
      | stop m => exact trivial
      | compile ce => simp [addOp, h]
  · cases hw : writeNTStart "expression" s with
    | err e s1 => exact trivial
    | ok a s1 =>
      dsimp only
      cases h : innerExpr (run n) s1 with
      | ok a2 s2 => exact trivial
      | err e s2 =>
        cases e with
        | stop m => exact trivial
        | compile ce =>
          show (writeNTStart "expression" >>= fun _ =>
            (do wrapCE (innerExpr (run n)) .expressionE "Expected a complete expression: "
                writeNTEnd "expression")) s = _
          rw [bind_ok _ _ hw]
          exact wrap_then_err _ _ _ _ h
  · cases hk : addKeywords [toL "static", toL "field"] s with
    | err e s' =>
      dsimp only
      show (addKeywords [toL "static", toL "field"] >>= _) s = _
      exact bind_err _ _ hk
    | ok a s1 =>
      dsimp only
      cases h : run n FnId.typeVars s1 with
      | ok a2 s2 => exact trivial
      | err e s2 =>
        cases e with
        | stop m => exact trivial
        | compile ce =>
          show (addKeywords [toL "static", toL "field"] >>= fun _ =>
            (do wrapCE (run n FnId.typeVars) .classVarDecE
                  "Expected a complete static  or a field declaration: "
                writeNT "classVarDec")) s = _
          rw [bind_ok _ _ hk]
          exact wrap_then_err _ _ _ _ h
  · cases hk : addKeywords [toL "var"] s with
    | err e s' =>
      dsimp only
      show (addKeywords [toL "var"] >>= _) s = _
      exact bind_err _ _ hk
    | ok a s1 =>
      dsimp only
      cases h : run n FnId.typeVars s1 with
      | ok a2 s2 => exact trivial
      | err e s2 =>
        cases e with
        | stop m => exact trivial
        | compile ce =>
          show (addKeywords [toL "var"] >>= fun _ =>
            (do wrapCE (run n FnId.typeVars) .varDecE
                  "Expected a complete variable declaration: "
                writeNT "varDec")) s = _
          rw [bind_ok _ _ hk]
          exact wrap_then_err _ _ _ _ h
  · cases hk : addKeywords [toL "constructor", toL "function", toL "method"] s with
    | err e s' =>
      dsimp only
      show (addKeywords [toL "constructor", toL "function", toL "method"] >>= _) s = _
      exact bind_err _ _ hk
    | ok a s1 =>
      dsimp only
      cases h : innerSubr (run n) s1 with
      | ok a2 s2 => exact trivial
      | err e s2 =>
        cases e with
        | stop m => exact trivial
        | compile ce =>
          show (addKeywords [toL "constructor", toL "function", toL "method"] >>=
            fun _ =>
            (do wrapCE (innerSubr (run n)) .subroutineE
                  "Expected a complete method, function or constructor declaration: "
                writeNTEnd "subroutineDec")) s = _
          rw [bind_ok _ _ hk]
          exact wrap_then_err _ _ _ _ h
  · cases ht : addType false s with
    | err e s' => exact trivial
    | ok a s1 =>
      dsimp only
      cases h : addIdentifier "variable name" s1 with
      | ok a2 s2 => exact trivial
      | err e s2 =>
        cases e with
        | stop m => exact trivial
        | compile ce =>
          show attempt .typeE (addType false) (pure ())
            (do
              wrapCE (addIdentifier "variable name") .parameterListE
                "Expected a complete parameter list declaration: "
              attempt .symbolE (addSymbols [toL ","]) (pure ())
                (run n FnId.paramLoop)) s = _
          rw [attempt, ht]
          exact bind_err _ _ (by simp only [wrapCE, h])
  · cases hk : addKeywords [toL "class"] s with
    | err e s' =>
      dsimp only
      show (addKeywords [toL "class"] >>= _) s = _
      exact bind_err _ _ hk
    | ok a s1 => exact trivial

/-- Whatever the flag, the committed lexemes are a sublist of the consumed. -/
theorem INV.csub {A : List (List Char)} {s : Eng} (h : INV A s) :
    s.committed.Sublist s.tok.consumed := by
  rcases h.hcur with ⟨_, hs⟩ | ⟨_, ⟨pre, hpre, hs⟩ | ⟨_, hs⟩⟩
  · exact hs
  · exact hs.trans (hpre ▸ List.sublist_append_left pre _)
  · exact hs

theorem pres_bind {α β : Type} {A : List (List Char)} {m : M α} {f : α → M β}
    (hm : PresA A m) (hf : ∀ a, PresA A (f a)) : PresA A (m >>= f) := by
  intro s hs
  have h0 := hm s hs
  rw [bindM_def]
  cases h : m s with
  | ok a s' =>
    rw [h] at h0
    exact hf a s' h0
  | err e s' =>
    rw [h] at h0
    exact h0

theorem pres_pure {α : Type} {A : List (List Char)} (a : α) :
    PresA A (pure a : M α) := fun _ hs => hs

theorem pres_getS {A : List (List Char)} : PresA A getS := fun _ hs => hs

theorem pres_throwC {A : List (List Char)} (k : EKind) (msg : String) :
    PresA A (throwC k msg) := fun _ hs => hs

theorem pres_wrapCE {A : List (List Char)} {m : M Unit} (hm : PresA A m)
    (k : EKind) (pre : String) : PresA A (wrapCE m k pre) := by
  intro s hs
  have h0 := hm s hs
  rw [wrapCE]
  cases h : m s with
  | ok a s' => rw [h] at h0; exact h0
  | err e s' =>
    rw [h] at h0
    cases e with
    | compile ce => exact h0
    | stop msg => exact h0

theorem pres_attempt {A : List (List Char)} {m onFail cont : M Unit}
    (hm : PresA A m) (h1 : PresA A onFail) (h2 : PresA A cont) (k : EKind) :
    PresA A (attempt k m onFail cont) := by
  intro s hs
  have h0 := hm s hs
  rw [attempt]
  cases h : m s with
  | ok a s' =>
    rw [h] at h0
    exact h2 s' h0
  | err e s' =>
    rw [h] at h0
    cases e with
    | compile ce =>
      dsimp only
      by_cases hk : ce.kind = k
      · rw [if_pos hk]
        exact h1 s' h0
      · rw [if_neg hk]
        exact h0
    | stop msg => exact h0

/-- Leaf texts distribute over appended traces. -/
theorem leafVals_append (a b : List Ev) :
    leafVals (a ++ b) = leafVals a ++ leafVals b := by
  induction a with
  | nil => rfl
  | cons ev rest ih =>
    cases ev with
    | openT nm i => simp [leafVals, ih]
    | closeT nm i => simp [leafVals, ih]
    | leaf tg v i => simp [leafVals, ih]

/-- The leaves produced by flushing the queue carry exactly its texts. -/
theorem leafVals_flush (ps : List (String × List Char)) (i : Int) :
    leafVals (ps.map (fun p => Ev.leaf p.1 p.2 i)) = ps.map (fun p => p.2) := by
  induction ps with
  | nil => rfl
  | cons p rest ih => simp [leafVals, ih]

theorem pres_writeBody {A : List (List Char)} : PresA A writeBody := by
  intro s hs
  refine ⟨?_, hs.hcur, hs.htok, hs.hvirgin, hs.hqne⟩
  show leafVals (s.out ++ s.body.map (fun p => Ev.leaf p.1 p.2 s.indent)) ++
      ([] : List (String × List Char)).map (fun p => p.2) =
    s.committed.map decodeTok
  rw [leafVals_append, leafVals_flush, List.map_nil, List.append_nil]
  exact hs.hout

theorem pres_writeNTStart {A : List (List Char)} (nm : String) :
    PresA A (writeNTStart nm) := by
  intro s hs
  refine ⟨?_, hs.hcur, hs.htok, hs.hvirgin, hs.hqne⟩
  show leafVals ((s.out ++ [Ev.openT nm s.indent]) ++
        s.body.map (fun p => Ev.leaf p.1 p.2 (s.indent + 2))) ++
      ([] : List (String × List Char)).map (fun p => p.2) =
    s.committed.map decodeTok
  rw [leafVals_append, leafVals_append, leafVals_flush, List.map_nil,
    List.append_nil]
  simpa [leafVals] using hs.hout

theorem pres_writeNTEnd {A : List (List Char)} (nm : String) :
    PresA A (writeNTEnd nm) := by
  intro s hs
  refine ⟨?_, hs.hcur, hs.htok, hs.hvirgin, hs.hqne⟩
  show leafVals ((s.out ++ s.body.map (fun p => Ev.leaf p.1 p.2 s.indent)) ++
        [Ev.closeT nm (s.indent - 2)]) ++
      ([] : List (String × List Char)).map (fun p => p.2) =
    s.committed.map decodeTok
  rw [leafVals_append, leafVals_append, leafVals_flush, List.map_nil,
    List.append_nil]
  simpa [leafVals] using hs.hout

theorem pres_writeNT {A : List (List Char)} (nm : String) :
    PresA A (writeNT nm) :=
  pres_bind (pres_writeNTStart nm) (fun _ => pres_writeNTEnd nm)

/-- The key stream lemma: advancing (and clearing the flag) keeps the
invariant, whether the stream promotes a lexeme, hits the initial empty unit,
or raises past exhaustion. -/
theorem pres_advanceClear {A : List (List Char)} : PresA A advanceClear := by
  intro s hs
  obtain ⟨⟨tok, nt, q, mr, ln, cons⟩, ind, body, safe, out, comm⟩ := s
  rw [advanceClear]
  cases mr with
  | false =>
    have hadv : advT ⟨tok, nt, q, false, ln, cons⟩ =
        .error (.stop "No more tokens") := by simp [advT]
    rw [hadv]
    exact hs
  | true =>
    have hsub : comm.Sublist cons := hs.csub
    cases hnt : nt with
    | cons c ncs =>
      subst hnt
      cases q with
      | nil =>
        have hadv : advT ⟨tok, c :: ncs, [], true, ln, cons⟩ =
            .ok ⟨c :: ncs, [], [], false, ln + 1, cons ++ [c :: ncs]⟩ := by
          simp [advT]
        rw [hadv]
        dsimp only [resStateU]
        refine ⟨hs.hout, ?_, ?_, ?_, ?_⟩
        · exact Or.inr ⟨rfl, Or.inl ⟨cons, rfl, hsub⟩⟩
        · have h3 := hs.htok
          simpa [bufOf] using h3
        · intro _ h
          simp at h
        · intro x hx
          simp at hx
      | cons qh qt =>
        have hqh : qh ≠ [] := hs.hqne qh (by simp)
        have hadv : advT ⟨tok, c :: ncs, qh :: qt, true, ln, cons⟩ =
            .ok ⟨c :: ncs, qh, qt, true, ln + 1, cons ++ [c :: ncs]⟩ := by
          simp [advT, hqh]
        rw [hadv]
        dsimp only [resStateU]
        refine ⟨hs.hout, ?_, ?_, ?_, ?_⟩
        · exact Or.inr ⟨rfl, Or.inl ⟨cons, rfl, hsub⟩⟩
        · have h3 := hs.htok
          simpa [bufOf, hqh] using h3
        · intro h
          exact absurd h hqh
        · intro x hx
          exact hs.hqne x (by simp [hx])
    | nil =>
      subst hnt
      cases q with
      | nil =>
        obtain ⟨htk, hcs⟩ := hs.hvirgin rfl rfl
        dsimp only at htk hcs
        have hadv : advT ⟨tok, [], [], true, ln, cons⟩ =
            .ok ⟨tok, [], [], false, ln, cons⟩ := by simp [advT]
        rw [hadv]
        dsimp only [resStateU]
        refine ⟨hs.hout, ?_, ?_, ?_, ?_⟩
        · exact Or.inr ⟨rfl, Or.inr ⟨htk, hsub⟩⟩
        · simpa [bufOf] using hs.htok
        · intro _ h
          simp at h
        · intro x hx
          simp at hx
      | cons qh qt =>
        have hqh : qh ≠ [] := hs.hqne qh (by simp)
        cases qt with
        | nil =>
          have hadv : advT ⟨tok, [], [qh], true, ln, cons⟩ =
              .ok ⟨qh, [], [], false, ln + 1, cons ++ [qh]⟩ := by simp [advT]
          rw [hadv]
          dsimp only [resStateU]
          refine ⟨hs.hout, ?_, ?_, ?_, ?_⟩
          · exact Or.inr ⟨rfl, Or.inl ⟨cons, rfl, hsub⟩⟩
          · have h3 := hs.htok
            simpa [bufOf] using h3
          · intro _ h
            simp at h
          · intro x hx
            simp at hx
        | cons q2 qt2 =>
          have hq2 : q2 ≠ [] := hs.hqne q2 (by simp)
          have hadv : advT ⟨tok, [], qh :: q2 :: qt2, true, ln, cons⟩ =
              .ok ⟨qh, q2, qt2, true, ln + 1, cons ++ [qh]⟩ := by
            simp [advT, hq2]
          rw [hadv]
          dsimp only [resStateU]
          refine ⟨hs.hout, ?_, ?_, ?_, ?_⟩
          · exact Or.inr ⟨rfl, Or.inl ⟨cons, rfl, hsub⟩⟩
          · have h3 := hs.htok
            simpa [bufOf, hq2] using h3
          · intro h
            exact absurd h hq2
          · intro x hx
            exact hs.hqne x (by simp [hx])

theorem pres_stepIfSafe {A : List (List Char)} : PresA A stepIfSafe := by
  intro s hs
  rw [stepIfSafe]
  by_cases h : s.safe = true
  · rw [if_pos h]
    exact pres_advanceClear s hs
  · rw [if_neg h]
    exact hs

/-- After the opening guard ran without raising, the cursor flag is clear. -/
theorem stepIfSafe_ok_safe {s s1 : Eng} {a : Unit} (h : stepIfSafe s = .ok a s1) :
    s1.safe = false := by
  rw [stepIfSafe] at h
  split at h
  · rw [advanceClear] at h
    cases hadv : advT s.tok with
    | ok t2 =>
      rw [hadv] at h
      cases h
      rfl
    | error e =>
      rw [hadv] at h
      cases h
  · next hnsf =>
    cases h
    simpa using hnsf

/-- The empty token matches none of the five patterns. -/
theorem tokenTypeF_nil : tokenTypeF ([] : List Char) = none := by decide

/-- Appending a leaf entry for a classified current token, with the flag
clear, preserves the invariant: the appended text is the decoded value and
the token joins the committed list lawfully. -/
theorem pres_pushGuarded {A : List (List Char)} (tag : String)
    (v : List Char → List Char) (τ : TType)
    (hv : ∀ t, tokenTypeF t = some τ → v t = decodeTok t)
    (s : Eng) (hs : INV A s) (hsf : s.safe = false)
    (hτ : tokenTypeF s.tok.token = some τ) :
    INV A (resStateU (pushBody tag v s)) := by
  have htne : s.tok.token ≠ [] := by
    intro h
    rw [h, tokenTypeF_nil] at hτ
    cases hτ
  refine ⟨?_, ?_, hs.htok, hs.hvirgin, hs.hqne⟩
  · show leafVals s.out ++ (s.body ++ [(tag, v s.tok.token)]).map (fun p => p.2) =
      (s.committed ++ [s.tok.token]).map decodeTok
    rw [List.map_append, List.map_append, ← List.append_assoc, hs.hout]
    simp [hv _ hτ]
  · left
    refine ⟨rfl, ?_⟩
    show (s.committed ++ [s.tok.token]).Sublist s.tok.consumed
    rcases hs.hcur with ⟨hT, _⟩ | ⟨_, ⟨pre, hpre, hsb⟩ | ⟨htk, _⟩⟩
    · rw [hsf] at hT
      cases hT
    · rw [hpre]
      exact hsb.append (List.Sublist.refl _)
    · exact absurd htk htne

theorem pres_addKeywords {A : List (List Char)} (kws : List (List Char)) :
    PresA A (addKeywords kws) := by
  intro s hs
  rw [addKeywords, bindM_def]
  cases hst : stepIfSafe s with
  | err e s1 =>
    have h1 := pres_stepIfSafe s hs
    rw [hst] at h1
    exact h1
  | ok a s1 =>
    have h1 : INV A s1 := by
      have h0 := pres_stepIfSafe s hs
      rw [hst] at h0
      exact h0
    have hsf : s1.safe = false := stepIfSafe_ok_safe hst
    dsimp only
    rw [bindM_def]
    dsimp only [getS]
    split
    · next hcond =>
      exact pres_pushGuarded _ _ .keywordT
        (fun t ht => by simp [decodeTok, ht]) s1 h1 hsf hcond.1
    · exact h1

theorem pres_addSymbols {A : List (List Char)} (syms : List (List Char)) :
    PresA A (addSymbols syms) := by
  intro s hs
  rw [addSymbols, bindM_def]
  cases hst : stepIfSafe s with
  | err e s1 =>
    have h1 := pres_stepIfSafe s hs
    rw [hst] at h1
    exact h1
  | ok a s1 =>
    have h1 : INV A s1 := by
      have h0 := pres_stepIfSafe s hs
      rw [hst] at h0
      exact h0
    have hsf : s1.safe = false := stepIfSafe_ok_safe hst
    dsimp only
    rw [bindM_def]
    dsimp only [getS]
    split
    · next hcond =>
      exact pres_pushGuarded _ _ .symbolT
        (fun t ht => by simp [decodeTok, ht]) s1 h1 hsf hcond.1
    · exact h1

theorem pres_addIdentifier {A : List (List Char)} (what : String) :
    PresA A (addIdentifier what) := by
  intro s hs
  rw [addIdentifier, bindM_def]
  cases hst : stepIfSafe s with
  | err e s1 =>
    have h1 := pres_stepIfSafe s hs
    rw [hst] at h1
    exact h1
  | ok a s1 =>
    have h1 : INV A s1 := by
      have h0 := pres_stepIfSafe s hs
      rw [hst] at h0
      exact h0
    have hsf : s1.safe = false := stepIfSafe_ok_safe hst
    dsimp only
    rw [bindM_def]
    dsimp only [getS]
    split
    · next hcond =>
      exact pres_pushGuarded _ _ .identifierT
        (fun t ht => by simp [decodeTok, ht]) s1 h1 hsf hcond
    · exact h1

theorem pres_addType {A : List (List Char)} (void : Bool) :
    PresA A (addType void) := by
  intro s hs
  rw [addType, bindM_def]
  cases hst : stepIfSafe s with
  | err e s1 =>
    have h1 := pres_stepIfSafe s hs
    rw [hst] at h1
    exact h1
  | ok a s1 =>
    have h1 : INV A s1 := by
      have h0 := pres_stepIfSafe s hs
      rw [hst] at h0
      exact h0
    have hsf : s1.safe = false := stepIfSafe_ok_safe hst
    dsimp only
    rw [bindM_def]
    dsimp only [getS]
    split
    all_goals
      split
      · next hcond =>
        exact pres_pushGuarded _ _ .keywordT
          (fun t ht => by simp [decodeTok, ht]) s1 h1 hsf hcond.1
      · split
        · next hcond =>
          exact pres_pushGuarded _ _ .identifierT
            (fun t ht => by simp [decodeTok, ht]) s1 h1 hsf hcond
        · exact h1

theorem pres_addOp {A : List (List Char)} (unary : Bool) :
    PresA A (addOp unary) := by
  intro s hs
  rw [addOp]
  split
  · dsimp only
    have h1 := pres_addSymbols (A := A) [toL "-", toL "~"] s hs
    cases h : addSymbols [toL "-", toL "~"] s with
    | ok a s' =>
      rw [h] at h1
      exact h1
    | err e s' =>
      rw [h] at h1
      cases e with
      | compile ce => exact h1
      | stop msg => exact h1
  · dsimp only
    have h1 := pres_addSymbols (A := A) opSyms s hs
    cases h : addSymbols opSyms s with
    | ok a s' =>
      rw [h] at h1
      exact h1
    | err e s' =>
      rw [h] at h1
      cases e with
      | compile ce => exact h1
      | stop msg => exact h1

theorem pres_bodyCls {A : List (List Char)} (r : FnId → M Unit)
    (hr : ∀ id, PresA A (r id)) : PresA A (bodyCls r) :=
  pres_bind (pres_addKeywords _) fun _ =>
  pres_bind (pres_addIdentifier _) fun _ =>
  pres_bind (pres_addSymbols _) fun _ =>
  pres_bind (pres_writeNTStart _) fun _ =>
  pres_bind (hr .clsVarLoop) fun _ =>
  pres_bind (hr .subrLoop) fun _ =>
  pres_bind (pres_addSymbols _) fun _ =>
  pres_writeNTEnd _

theorem pres_bodyClsVarLoop {A : List (List Char)} (r : FnId → M Unit)
    (hr : ∀ id, PresA A (r id)) : PresA A (bodyClsVarLoop r) :=
  pres_attempt (hr .clsVarDec) (pres_pure _) (hr .clsVarLoop) _

theorem pres_bodyClsVarDec {A : List (List Char)} (r : FnId → M Unit)
    (hr : ∀ id, PresA A (r id)) : PresA A (bodyClsVarDec r) :=
  pres_bind (pres_addKeywords _) fun _ =>
  pres_bind (pres_wrapCE (hr .typeVars) _ _) fun _ =>
  pres_writeNT _

theorem pres_bodySubrLoop {A : List (List Char)} (r : FnId → M Unit)
    (hr : ∀ id, PresA A (r id)) : PresA A (bodySubrLoop r) :=
  pres_attempt (hr .subr) (pres_pure _) (hr .subrLoop) _

theorem pres_innerSubr {A : List (List Char)} (r : FnId → M Unit)
    (hr : ∀ id, PresA A (r id)) : PresA A (innerSubr r) :=
  pres_bind (pres_addType _) fun _ =>
  pres_bind (pres_addIdentifier _) fun _ =>
  pres_bind (pres_addSymbols _) fun _ =>
  pres_bind (pres_writeNTStart _) fun _ =>
  pres_bind (hr .paramList) fun _ =>
  pres_bind (pres_addSymbols _) fun _ =>
  pres_bind pres_writeBody fun _ =>
  hr .subrBody

theorem pres_bodySubr {A : List (List Char)} (r : FnId → M Unit)
    (hr : ∀ id, PresA A (r id)) : PresA A (bodySubr r) :=
  pres_bind (pres_addKeywords _) fun _ =>
  pres_bind (pres_wrapCE (pres_innerSubr r hr) _ _) fun _ =>
  pres_writeNTEnd _

theorem pres_bodyParamLoop {A : List (List Char)} (r : FnId → M Unit)
    (hr : ∀ id, PresA A (r id)) : PresA A (bodyParamLoop r) :=
  pres_attempt (pres_addType _) (pres_pure _)
    (pres_bind (pres_wrapCE (pres_addIdentifier _) _ _) fun _ =>
      pres_attempt (pres_addSymbols _) (pres_pure _) (hr .paramLoop) _) _

theorem pres_bodyParamList {A : List (List Char)} (r : FnId → M Unit)
    (hr : ∀ id, PresA A (r id)) : PresA A (bodyParamList r) :=
  pres_bind (hr .paramLoop) fun _ => pres_writeNT _

theorem pres_bodyVarDec {A : List (List Char)} (r : FnId → M Unit)
    (hr : ∀ id, PresA A (r id)) : PresA A (bodyVarDec r) :=
  pres_bind (pres_addKeywords _) fun _ =>
  pres_bind (pres_wrapCE (hr .typeVars) _ _) fun _ =>
  pres_writeNT _

theorem pres_bodyVarDecLoop {A : List (List Char)} (r : FnId → M Unit)
    (hr : ∀ id, PresA A (r id)) : PresA A (bodyVarDecLoop r) :=
  pres_attempt (hr .varDec) (pres_pure _) (hr .varDecLoop) _

theorem pres_innerSubrBody {A : List (List Char)} (r : FnId → M Unit)
    (hr : ∀ id, PresA A (r id)) : PresA A (innerSubrBody r) :=
  pres_bind (pres_addSymbols _) fun _ =>
  pres_bind (pres_writeNTStart _) fun _ =>
  pres_bind (hr .varDecLoop) fun _ =>
  pres_bind (hr .stmts) fun _ =>
  pres_addSymbols _

theorem pres_bodySubrBody {A : List (List Char)} (r : FnId → M Unit)
    (hr : ∀ id, PresA A (r id)) : PresA A (bodySubrBody r) :=
  pres_bind (pres_wrapCE (pres_innerSubrBody r hr) _ _) fun _ =>
  pres_writeNTEnd _

theorem pres_bodyStmts {A : List (List Char)} (r : FnId → M Unit)
    (hr : ∀ id, PresA A (r id)) : PresA A (bodyStmts r) := by
  refine pres_bind (pres_writeNTStart _) fun _ => ?_
  refine pres_bind pres_getS fun s0 => ?_
  split
  · exact pres_bind pres_advanceClear fun _ =>
      pres_bind (hr .stmtLoop) fun _ => pres_writeNTEnd _
  · exact pres_bind (pres_pure _) fun _ =>
      pres_bind (hr .stmtLoop) fun _ => pres_writeNTEnd _

theorem pres_bodyStmtLoop {A : List (List Char)} (r : FnId → M Unit)
    (hr : ∀ id, PresA A (r id)) : PresA A (bodyStmtLoop r) := by
  refine pres_bind pres_getS fun s0 => ?_
  split
  · split
    · exact pres_bind (hr .letS) fun _ =>
        pres_bind pres_stepIfSafe fun _ => hr .stmtLoop
    · split
      · exact pres_bind (hr .ifS) fun _ =>
          pres_bind pres_stepIfSafe fun _ => hr .stmtLoop
      · split
        · exact pres_bind (hr .whileS) fun _ =>
            pres_bind pres_stepIfSafe fun _ => hr .stmtLoop
        · split
          · exact pres_bind (hr .doS) fun _ =>
              pres_bind pres_stepIfSafe fun _ => hr .stmtLoop
          · split
            · exact pres_bind (hr .returnS) fun _ =>
                pres_bind pres_stepIfSafe fun _ => hr .stmtLoop
            · exact pres_bind (pres_throwC _ _) fun _ =>
                pres_bind pres_stepIfSafe fun _ => hr .stmtLoop
  · exact pres_pure _

theorem pres_innerDo {A : List (List Char)} (r : FnId → M Unit)
    (hr : ∀ id, PresA A (r id)) : PresA A (innerDo r) :=
  pres_bind (pres_addKeywords _) fun _ =>
  pres_bind (pres_writeNTStart _) fun _ =>
  pres_bind (hr .subrCall) fun _ =>
  pres_addSymbols _

theorem pres_bodyDo {A : List (List Char)} (r : FnId → M Unit)
    (hr : ∀ id, PresA A (r id)) : PresA A (bodyDo r) :=
  pres_bind (pres_wrapCE (pres_innerDo r hr) _ _) fun _ =>
  pres_writeNTEnd _

theorem pres_innerLet {A : List (List Char)} (r : FnId → M Unit)
    (hr : ∀ id, PresA A (r id)) : PresA A (innerLet r) :=
  pres_bind (pres_addKeywords _) fun _ =>
  pres_bind (pres_addIdentifier _) fun _ =>
  pres_bind (pres_writeNTStart _) fun _ =>
  pres_bind
    (pres_attempt (pres_bind (pres_addSymbols _) fun _ => pres_writeBody)
      (pres_pure _)
      (pres_bind (hr .expr) fun _ => pres_addSymbols _) _) fun _ =>
  pres_bind (pres_addSymbols _) fun _ =>
  pres_bind pres_writeBody fun _ =>
  pres_bind (hr .expr) fun _ =>
  pres_addSymbols _

theorem pres_bodyLet {A : List (List Char)} (r : FnId → M Unit)
    (hr : ∀ id, PresA A (r id)) : PresA A (bodyLet r) :=
  pres_bind (pres_wrapCE (pres_innerLet r hr) _ _) fun _ =>
  pres_writeNTEnd _

theorem pres_innerWhile {A : List (List Char)} (r : FnId → M Unit)
    (hr : ∀ id, PresA A (r id)) : PresA A (innerWhile r) :=
  pres_bind (pres_addKeywords _) fun _ =>
  pres_bind (pres_addSymbols _) fun _ =>
  pres_bind (pres_writeNTStart _) fun _ =>
  pres_bind (hr .expr) fun _ =>
  pres_bind (pres_addSymbols _) fun _ =>
  pres_bind (pres_addSymbols _) fun _ =>
  pres_bind pres_writeBody fun _ =>
  pres_bind (hr .stmts) fun _ =>
  pres_addSymbols _

theorem pres_bodyWhile {A : List (List Char)} (r : FnId → M Unit)
    (hr : ∀ id, PresA A (r id)) : PresA A (bodyWhile r) :=
  pres_bind (pres_wrapCE (pres_innerWhile r hr) _ _) fun _ =>
  pres_writeNTEnd _

theorem pres_innerReturn {A : List (List Char)} (r : FnId → M Unit)
    (hr : ∀ id, PresA A (r id)) : PresA A (innerReturn r) :=
  pres_bind (pres_addKeywords _) fun _ =>
  pres_bind (pres_writeNTStart _) fun _ =>
  pres_attempt (pres_addSymbols _)
    (pres_bind
      (pres_attempt (hr .expr) (pres_pure _) (pres_pure _) _) fun _ =>
      pres_addSymbols _)
    (pres_pure _) _

theorem pres_bodyReturn {A : List (List Char)} (r : FnId → M Unit)
    (hr : ∀ id, PresA A (r id)) : PresA A (bodyReturn r) :=
  pres_bind (pres_wrapCE (pres_innerReturn r hr) _ _) fun _ =>
  pres_writeNTEnd _

theorem pres_innerIf {A : List (List Char)} (r : FnId → M Unit)
    (hr : ∀ id, PresA A (r id)) : PresA A (innerIf r) := by
  refine pres_bind (pres_addKeywords _) fun _ => ?_
  refine pres_bind (pres_addSymbols _) fun _ => ?_
  refine pres_bind (pres_writeNTStart _) fun _ => ?_
  refine pres_bind (hr .expr) fun _ => ?_
  refine pres_bind (pres_addSymbols _) fun _ => ?_
  refine pres_bind (pres_addSymbols _) fun _ => ?_
  refine pres_bind pres_writeBody fun _ => ?_
  refine pres_bind (hr .stmts) fun _ => ?_
  refine pres_bind (pres_addSymbols _) fun _ => ?_
  refine pres_bind pres_advanceClear fun _ => ?_
  refine pres_bind pres_getS fun s2 => ?_
  split
  · exact pres_bind (pres_addKeywords _) fun _ =>
      pres_bind (pres_addSymbols _) fun _ =>
      pres_bind pres_writeBody fun _ =>
      pres_bind (hr .stmts) fun _ =>
      pres_addSymbols _
  · exact pres_pure _

theorem pres_bodyIf {A : List (List Char)} (r : FnId → M Unit)
    (hr : ∀ id, PresA A (r id)) : PresA A (bodyIf r) :=
  pres_bind (pres_wrapCE (pres_innerIf r hr) _ _) fun _ =>
  pres_writeNTEnd _

theorem pres_innerExpr {A : List (List Char)} (r : FnId → M Unit)
    (hr : ∀ id, PresA A (r id)) : PresA A (innerExpr r) :=
  pres_bind (hr .term) fun _ => hr .opLoopF

theorem pres_bodyExpr {A : List (List Char)} (r : FnId → M Unit)
    (hr : ∀ id, PresA A (r id)) : PresA A (bodyExpr r) :=
  pres_bind (pres_writeNTStart _) fun _ =>
  pres_bind (pres_wrapCE (pres_innerExpr r hr) _ _) fun _ =>
  pres_writeNTEnd _

theorem pres_bodyOpLoop {A : List (List Char)} (r : FnId → M Unit)
    (hr : ∀ id, PresA A (r id)) : PresA A (bodyOpLoop r) :=
  pres_attempt
    (pres_bind (pres_addOp _) fun _ =>
      pres_bind pres_writeBody fun _ => hr .term)
    (pres_pure _) (hr .opLoopF) _

theorem pres_termDispatch {A : List (List Char)} (r : FnId → M Unit)
    (hr : ∀ id, PresA A (r id)) : PresA A (termDispatch r) := by
  intro s hs
  rw [termDispatch, bindM_def]
  cases hst : stepIfSafe s with
  | err e s1 =>
    have h1 := pres_stepIfSafe s hs
    rw [hst] at h1
    exact h1
  | ok a s1 =>
    have h1 : INV A s1 := by
      have h0 := pres_stepIfSafe s hs
      rw [hst] at h0
      exact h0
    have hsf : s1.safe = false := stepIfSafe_ok_safe hst
    dsimp only
    rw [bindM_def]
    dsimp only [getS]
    split
    · next hcond =>
      exact pres_pushGuarded _ _ .intConstT
        (fun t ht => by simp [decodeTok, ht]) s1 h1 hsf hcond
    · split
      · next hcond =>
        exact pres_pushGuarded _ _ .stringConstT
          (fun t ht => by simp [decodeTok, ht]) s1 h1 hsf hcond
      · split
        · exact pres_wrapCE (pres_addKeywords _) _ _ s1 h1
        · split
          · refine (pres_bind (pres_addIdentifier _) fun _ =>
              pres_bind pres_advanceClear fun _ =>
              pres_bind pres_getS fun s2 => ?_) s1 h1
            split
            · split
              · exact pres_bind (pres_addSymbols _) fun _ =>
                  pres_bind pres_writeBody fun _ =>
                  pres_bind (hr .expr) fun _ => pres_addSymbols _
              · split
                · exact pres_bind (pres_addSymbols _) fun _ =>
                    pres_bind pres_writeBody fun _ =>
                    pres_bind (hr .exprList) fun _ => pres_addSymbols _
                · split
                  · exact pres_bind (pres_addSymbols _) fun _ =>
                      pres_bind pres_writeBody fun _ => hr .subrCall
                  · exact pres_pure _
            · exact pres_pure _
          · split
            · refine ?_
              split
              · exact (pres_bind (pres_addSymbols _) fun _ =>
                  pres_bind pres_writeBody fun _ =>
                  pres_bind (hr .expr) fun _ => pres_addSymbols _) s1 h1
              · split
                · exact (pres_bind (pres_addOp _) fun _ =>
                    pres_bind pres_writeBody fun _ => hr .term) s1 h1
                · exact h1
            · exact h1

theorem pres_bodyTerm {A : List (List Char)} (r : FnId → M Unit)
    (hr : ∀ id, PresA A (r id)) : PresA A (bodyTerm r) :=
  pres_bind (pres_writeNTStart _) fun _ =>
  pres_bind (pres_termDispatch r hr) fun _ =>
  pres_writeNTEnd _

theorem pres_bodyExprList {A : List (List Char)} (r : FnId → M Unit)
    (hr : ∀ id, PresA A (r id)) : PresA A (bodyExprList r) :=
  pres_bind (pres_writeNTStart _) fun _ =>
  pres_bind pres_stepIfSafe fun _ =>
  pres_bind (hr .exprListLoop) fun _ =>
  pres_writeNTEnd _

theorem pres_bodyExprListLoop {A : List (List Char)} (r : FnId → M Unit)
    (hr : ∀ id, PresA A (r id)) : PresA A (bodyExprListLoop r) := by
  refine pres_bind pres_getS fun s0 => ?_
  split
  · exact pres_attempt (hr .expr) (pres_pure _)
      (pres_attempt
        (pres_bind (pres_addSymbols _) fun _ => pres_writeBody)
        (pres_pure _) (hr .exprListLoop) _) _
  · exact pres_pure _

theorem pres_innerSubrCall {A : List (List Char)} (r : FnId → M Unit)
    (hr : ∀ id, PresA A (r id)) : PresA A (innerSubrCall r) := by
  refine pres_bind (pres_addIdentifier _) fun _ => ?_
  refine pres_bind (pres_addSymbols _) fun _ => ?_
  refine pres_bind pres_writeBody fun _ => ?_
  refine pres_bind pres_getS fun s0 => ?_
  split
  · split
    · exact pres_bind (hr .exprList) fun _ => pres_addSymbols _
    · split
      · exact hr .subrCall
      · exact pres_pure _
  · exact pres_pure _

theorem pres_bodySubrCall {A : List (List Char)} (r : FnId → M Unit)
    (hr : ∀ id, PresA A (r id)) : PresA A (bodySubrCall r) :=
  pres_wrapCE (pres_innerSubrCall r hr) _ _

theorem pres_bodyTypeVars {A : List (List Char)} (r : FnId → M Unit)
    (hr : ∀ id, PresA A (r id)) : PresA A (bodyTypeVars r) :=
  pres_bind (pres_addType _) fun _ =>
  pres_bind (pres_addIdentifier _) fun _ =>
  hr .varsLoop

theorem pres_bodyVarsLoop {A : List (List Char)} (r : FnId → M Unit)
    (hr : ∀ id, PresA A (r id)) : PresA A (bodyVarsLoop r) := by
  refine pres_bind (pres_addSymbols _) fun _ => ?_
  refine pres_bind pres_getS fun s0 => ?_
  split
  · exact pres_pure _
  · exact pres_bind (pres_addIdentifier _) fun _ => hr .varsLoop

/-- Every routine, at every fuel, preserves the invariant. -/
theorem run_pres (A : List (List Char)) :
    ∀ (n : Nat) (id : FnId), PresA A (run n id) := by
  intro n
  induction n with
  | zero => intro id s hs; exact hs
  | succ n ih =>
    intro id
    cases id with
    | cls => exact pres_bodyCls (run n) ih
    | clsVarLoop => exact pres_bodyClsVarLoop (run n) ih
    | clsVarDec => exact pres_bodyClsVarDec (run n) ih
    | subrLoop => exact pres_bodySubrLoop (run n) ih
    | subr => exact pres_bodySubr (run n) ih
    | paramList => exact pres_bodyParamList (run n) ih
    | paramLoop => exact pres_bodyParamLoop (run n) ih
    | varDec => exact pres_bodyVarDec (run n) ih
    | varDecLoop => exact pres_bodyVarDecLoop (run n) ih
    | subrBody => exact pres_bodySubrBody (run n) ih
    | stmts => exact pres_bodyStmts (run n) ih
    | stmtLoop => exact pres_bodyStmtLoop (run n) ih
    | doS => exact pres_bodyDo (run n) ih
    | letS => exact pres_bodyLet (run n) ih
    | whileS => exact pres_bodyWhile (run n) ih
    | returnS => exact pres_bodyReturn (run n) ih
    | ifS => exact pres_bodyIf (run n) ih
    | expr => exact pres_bodyExpr (run n) ih
    | opLoopF => exact pres_bodyOpLoop (run n) ih
    | term => exact pres_bodyTerm (run n) ih
    | exprList => exact pres_bodyExprList (run n) ih
    | exprListLoop => exact pres_bodyExprListLoop (run n) ih
    | subrCall => exact pres_bodySubrCall (run n) ih
    | typeVars => exact pres_bodyTypeVars (run n) ih
    | varsLoop => exact pres_bodyVarsLoop (run n) ih

/-- The invariant holds in the fresh engine over the unit's lexemes, provided
they are nonempty (which the scanner guarantees). -/
theorem INV_init (A : List (List Char)) (hA : ∀ x ∈ A, x ≠ []) :
    INV A (initEng A) := by
  refine ⟨rfl, Or.inl ⟨rfl, List.nil_sublist _⟩, ?_, fun _ _ => ⟨rfl, rfl⟩, hA⟩
  simp [initEng, initTok, bufOf]

/-- The closing write empties the pending queue. -/
theorem writeNTEnd_body_nil {nm : String} {s s' : Eng} {a : Unit}
    (h : writeNTEnd nm s = .ok a s') : s'.body = [] := by
  rw [writeNTEnd] at h
  cases h
  rfl

/-- A chain ending in a step with property `P` has `P` at its `ok` result. -/
theorem bind_last {P : Eng → Prop} (m : M Unit) (f : Unit → M Unit)
    (hf : ∀ (b : Unit) (s2 s3 : Eng), f b s2 = .ok () s3 → P s3)
    {s s' : Eng} {a : Unit} (h : (m >>= f) s = .ok a s') : P s' := by
  rw [bindM_def] at h
  cases hm : m s with
  | ok b s2 =>
    rw [hm] at h
    cases a
    exact hf b s2 s' h
  | err e s2 =>
    rw [hm] at h
    cases h

/-- A successful `compile_class` leaves the pending queue empty: its last
action is the closing write of the `class` tag. -/
theorem run_cls_body_nil {n : Nat} {s s' : Eng} {a : Unit}
    (h : run n FnId.cls s = .ok a s') : s'.body = [] := by
  cases n with
  | zero => cases h
  | succ n =>
    refine bind_last (P := fun t => t.body = []) _ _ (fun _ s2 s3 h2 => ?_) h
    refine bind_last (P := fun t => t.body = []) _ _ (fun _ s4 s5 h4 => ?_) h2
    refine bind_last (P := fun t => t.body = []) _ _ (fun _ s6 s7 h6 => ?_) h4
    refine bind_last (P := fun t => t.body = []) _ _ (fun _ s8 s9 h8 => ?_) h6
    refine bind_last (P := fun t => t.body = []) _ _ (fun _ s10 s11 h10 => ?_) h8
    refine bind_last (P := fun t => t.body = []) _ _ (fun _ s12 s13 h12 => ?_) h10
    refine bind_last (P := fun t => t.body = []) _ _ (fun _ s14 s15 h14 => ?_) h12
    exact writeNTEnd_body_nil h14

/-- The amended C1: for every unit (a list of cleaned lines) whose
compilation finishes without error, the emitted leaf texts are exactly the
decoded values, in order, of the lexemes the engine committed; the committed
lexemes are a subsequence of the lexemes `advance()` served, which in turn
are a prefix of the unit's full lexeme sequence.  (The original equality with
the raw lexeme sequence fails: string constants are emitted unquoted, integer
constants decimally normalised, trailing lexemes never requested, and a stray
block-open brace in statement position is consumed without a leaf.) -/
theorem c1_amended_roundtrip (fuel : Nat) (lines : List (List Char)) :
    (match run fuel FnId.cls (initEng (List.flatten (lines.map findAll))) with
     | .ok _ s' =>
       leafVals s'.out = s'.committed.map decodeTok ∧
       s'.committed.Sublist s'.tok.consumed ∧
       ∃ rest, s'.tok.consumed ++ rest = List.flatten (lines.map findAll)
     | .err _ _ => True) := by
  have hA : ∀ x ∈ List.flatten (lines.map findAll), x ≠ [] := by
    intro x hx
    rw [List.mem_flatten] at hx
    obtain ⟨l, hl, hxl⟩ := hx
    rw [List.mem_map] at hl
    obtain ⟨line, _, rfl⟩ := hl
    exact findAllAux_ne_nil _ _ x hxl
  have h0 : INV (List.flatten (lines.map findAll))
      (initEng (List.flatten (lines.map findAll))) := INV_init _ hA
  have hrun := run_pres (List.flatten (lines.map findAll)) fuel .cls _ h0
  cases h : run fuel FnId.cls (initEng (List.flatten (lines.map findAll))) with
  | err e s' => exact trivial
  | ok a s' =>
    rw [h] at hrun
    have hbody : s'.body = [] := run_cls_body_nil h
    refine ⟨?_, hrun.csub, ⟨_, hrun.htok⟩⟩
    have hout := hrun.hout
    simp only [resStateU] at hout
    rw [hbody] at hout
    simpa using hout

end Jack
